import Mathlib

/-!
Verification of the 2048 game engine in `script.js`.

The JavaScript source keeps the whole game in module-level mutable variables
(`board`, `score`, `bestScore`, `won`, `historyStack`, `undosRemaining`,
`isTimedGame`, `timeRemaining`, the `timerInterval` handle, the message
overlay visibility) plus two `localStorage` slots (`'gameState'` and
`'bestScore'`).  We embed that state as the structure `GameState` and each
non-rendering function of the source as a `GameState` transformer.  JavaScript
numbers are modelled as `Int` (all arithmetic in the source is integral), a
board cell `null | number` as `Option Int`, and the JSON value stored by
`saveGameState` as the inductive `JSVal`.  Randomness (`Math.random` in
`spawnTile`) is modelled by explicit parameters choosing the empty cell and
the tile value.  Rendering, sound, vibration and confetti have no effect on
this state and are omitted.
-/

set_option linter.unnecessarySimpa false

namespace Game2048

/-- A board cell: `null` (empty) or a tile value.  Source: cells of `board`. -/
abbrev Cell := Option Int

/-- `board` is a `SIZE × SIZE` row-major grid of cells. -/
abbrev Board := List (List Cell)

/-- `const SIZE = 4;` -/
def SIZE : Nat := 4

/-! ### `slideAndCombine` (script.js lines 454-478)

```js
function slideAndCombine(array) {
  let arr = array.filter(x => x !== null);
  for (let i = 0; i < arr.length - 1; i++) {
    if (arr[i] === arr[i + 1]) {
      arr[i] *= 2;
      score += arr[i];
      arr[i + 1] = null;
      if (arr[i] === 2048 && !won) { won = true; showMessage('You win!'); }
    }
  }
  let newArr = arr.filter(x => x !== null);
  while (newArr.length < SIZE) { newArr.push(null); }
  return newArr;
}
```

The `for` loop is embedded as `mergeLoop` with an explicit index `i` and a
fuel argument equal to the remaining number of iterations
(`arr.length - 1 - i`); the in-place updates `arr[i] *= 2` and
`arr[i+1] = null` become `List.set`.  JavaScript `===` on `null | number`
values is exactly decidable equality on `Option Int`; `null * 2` evaluates to
the number `0` in JavaScript, which the model reproduces via
`2 * (… ).getD 0` (this branch is unreachable from `slideAndCombine`, whose
loop input contains no `null`s).  The global `score` and `won` mutations are
threaded explicitly; `showMessage('You win!')` is accounted for at the
session level (`handleKey`), where the overlay visibility lives. -/
def mergeLoop : List Cell → Int → Bool → Nat → Nat → List Cell × Int × Bool
  | arr, score, won, _, 0 => (arr, score, won)
  | arr, score, won, i, fuel + 1 =>
    if arr.getD i none = arr.getD (i + 1) none then
      let v : Int := 2 * (arr.getD i none).getD 0
      mergeLoop ((arr.set i (some v)).set (i + 1) none)
        (score + v) (won || (v == 2048)) (i + 1) fuel
    else
      mergeLoop arr score won (i + 1) fuel

/-- `slideAndCombine`, returning the new line together with the updated
`score` and `won` globals. -/
def slideAndCombine (array : List Cell) (score : Int) (won : Bool) :
    List Cell × Int × Bool :=
  let arr := array.filter (fun x => x.isSome)
  let r := mergeLoop arr score won 0 (arr.length - 1)
  let newArr := r.1.filter (fun x => x.isSome)
  (newArr ++ List.replicate (SIZE - newArr.length) none, r.2.1, r.2.2)

/-! ### Recursive characterization of the merge loop

`mergeSeq c xs` describes the loop from index `i` onward when the cell at
index `i` holds `c` and the cells after it hold the (dense, not yet visited)
values `xs`; `combinePairs` describes the fully compacted result.  These are
proof-side re-formulations; `slide_spec` below proves them equal to the
faithful `mergeLoop`/`slideAndCombine` model. -/
def mergeSeq : Cell → List Int → List Cell × Int × Bool
  | c, [] => ([c], 0, false)
  | none, b :: rest =>
    let r := mergeSeq (some b) rest
    (none :: r.1, r.2.1, r.2.2)
  | some a, b :: rest =>
    if a = b then
      let r := mergeSeq none rest
      (some (2 * a) :: r.1, r.2.1 + 2 * a, r.2.2 || (2 * a == 2048))
    else
      let r := mergeSeq (some b) rest
      (some a :: r.1, r.2.1, r.2.2)

/-- Dense-line view of one sweep of the merge loop: adjacent equal values
merge, a freshly merged tile never merges again in the same sweep. -/
def combinePairs : List Int → List Int × Int × Bool
  | [] => ([], 0, false)
  | [a] => ([a], 0, false)
  | a :: b :: rest =>
    if a = b then
      let r := combinePairs rest
      (2 * a :: r.1, r.2.1 + 2 * a, r.2.2 || (2 * a == 2048))
    else
      let r := combinePairs (b :: rest)
      (a :: r.1, r.2.1, r.2.2)

/-- Prepend an optional head value to a dense list. -/
def denseOf : Cell → List Int → List Int
  | none, xs => xs
  | some a, xs => a :: xs

/-- `MergeBlocks input output delta`: the input line splits into blocks that
are either a single tile kept unchanged or two adjacent equal tiles merged
into one doubled tile, and `delta` is the sum of the doubled values.
Existence of such a decomposition for the result of one sweep is exactly the
"no tile is merged twice in one application" property of the spec. -/
inductive MergeBlocks : List Int → List Int → Int → Prop
  | nil : MergeBlocks [] [] 0
  | keep (a : Int) {xs ys : List Int} {d : Int} :
      MergeBlocks xs ys d → MergeBlocks (a :: xs) (a :: ys) d
  | merge (a : Int) {xs ys : List Int} {d : Int} :
      MergeBlocks xs ys d → MergeBlocks (a :: a :: xs) (2 * a :: ys) (d + 2 * a)

/-! ### Move functions (script.js lines 392-451) -/

/-- `arraysEqual(a, b)` (lines 481-486): element-wise `!==` scan over the
indices of `a`. -/
def arraysEqual (a b : List Cell) : Bool :=
  (List.range a.length).all (fun i => a.getD i none == b.getD i none)

/-- `moveLeft` (lines 392-403): resolve each row in order, replacing it when
it differs from the resolved row; `score` and `won` are threaded through every
`slideAndCombine` call.  Returns the rows, the two globals, and `changed`. -/
def moveRowsLeft : List (List Cell) → Int → Bool →
    List (List Cell) × Int × Bool × Bool
  | [], s, w => ([], s, w, false)
  | row :: rest, s, w =>
    let r1 := slideAndCombine row s w
    let r2 := moveRowsLeft rest r1.2.1 r1.2.2
    if arraysEqual row r1.1 then (row :: r2.1, r2.2.1, r2.2.2.1, r2.2.2.2)
    else (r1.1 :: r2.1, r2.2.1, r2.2.2.1, true)

/-- `moveRight` (lines 405-417): each row is reversed, resolved, reversed
back, and compared with the original row. -/
def moveRowsRight : List (List Cell) → Int → Bool →
    List (List Cell) × Int × Bool × Bool
  | [], s, w => ([], s, w, false)
  | row :: rest, s, w =>
    let r1 := slideAndCombine row.reverse s w
    let newRow := r1.1.reverse
    let r2 := moveRowsRight rest r1.2.1 r1.2.2
    if arraysEqual row newRow then (row :: r2.1, r2.2.1, r2.2.2.1, r2.2.2.2)
    else (newRow :: r2.1, r2.2.1, r2.2.2.1, true)

/-- Column `c` of the board read top to bottom (`column.push(board[r][c])`
for `r = 0 … SIZE-1`). -/
def getColumn (b : Board) (c : Nat) : List Cell :=
  (List.range SIZE).map (fun r => (b.getD r []).getD c none)

/-- Write `col` back into column `c`.  The source assigns
`board[r][c] = newColumn[r]` only when the two differ; writing an equal value
is the identity, so the unconditional per-row assignment used here is
extensionally the same update. -/
def setColumn (b : Board) (c : Nat) (col : List Cell) : Board :=
  (List.range SIZE).foldl
    (fun bb r => bb.set r ((bb.getD r []).set c (col.getD r none))) b

/-- The per-column `changed` accumulation of `moveUp`/`moveDown`: some row of
the column differs from the resolved column. -/
def colChanged (col ncol : List Cell) : Bool :=
  (List.range SIZE).any (fun r => !(col.getD r none == ncol.getD r none))

/-- The body of `moveUp`'s `for (let c …)` loop (lines 421-431): read column
`c`, resolve it, write it back, and accumulate `changed`. -/
def upStep (acc : Board × Int × Bool × Bool) (c : Nat) :
    Board × Int × Bool × Bool :=
  let col := getColumn acc.1 c
  let r1 := slideAndCombine col acc.2.1 acc.2.2.1
  (setColumn acc.1 c r1.1, r1.2.1, r1.2.2, acc.2.2.2 || colChanged col r1.1)

/-- `moveUp` (lines 419-433): resolve each column top-down. -/
def moveColsUp (b : Board) (s : Int) (w : Bool) : Board × Int × Bool × Bool :=
  (List.range SIZE).foldl upStep (b, s, w, false)

/-- The body of `moveDown`'s column loop (lines 437-449): the column is
reversed, resolved, and reversed back before the write-back and
comparison. -/
def downStep (acc : Board × Int × Bool × Bool) (c : Nat) :
    Board × Int × Bool × Bool :=
  let col := getColumn acc.1 c
  let r1 := slideAndCombine col.reverse acc.2.1 acc.2.2.1
  let ncol := r1.1.reverse
  (setColumn acc.1 c ncol, r1.2.1, r1.2.2, acc.2.2.2 || colChanged col ncol)

/-- `moveDown` (lines 435-451): resolve each column bottom-up via reversal. -/
def moveColsDown (b : Board) (s : Int) (w : Bool) : Board × Int × Bool × Bool :=
  (List.range SIZE).foldl downStep (b, s, w, false)

/-- The four arrow-key directions handled by `handleKey`. -/
inductive Dir where
  | left
  | right
  | up
  | down
deriving DecidableEq

/-- The `switch (e.key)` dispatch of `handleKey`: run the move function for
the direction, returning `(board, score, won, changed)`. -/
def applyMove : Dir → Board → Int → Bool → Board × Int × Bool × Bool
  | .left, b, s, w => moveRowsLeft b s w
  | .right, b, s, w => moveRowsRight b s w
  | .up, b, s, w => moveColsUp b s w
  | .down, b, s, w => moveColsDown b s w

/-! ### Board helpers (script.js lines 299-324, 587-603) -/

/-- `createEmptyBoard()` (lines 300-309). -/
def createEmptyBoard : Board :=
  List.replicate SIZE (List.replicate SIZE (none : Cell))

/-- Write one cell of the board. -/
def setCell (b : Board) (r c : Nat) (v : Cell) : Board :=
  b.set r ((b.getD r []).set c v)

/-- The list of empty positions in row-major order, as collected by
`spawnTile` (lines 313-320). -/
def emptyCells (b : Board) : List (Nat × Nat) :=
  (List.range SIZE).flatMap (fun r =>
    (List.range SIZE).filterMap (fun c =>
      if (b.getD r []).getD c none = none then some (r, c) else none))

/-- `spawnTile()` (lines 312-324).  `Math.floor(Math.random() * n)` is
modelled by `k % n` for an arbitrary `k`, and `Math.random() < 0.9 ? 2 : 4`
by the flag `four`. -/
def spawnTile (b : Board) (k : Nat) (four : Bool) : Board :=
  let es := emptyCells b
  if es.isEmpty then b
  else
    let rc := es.getD (k % es.length) (0, 0)
    setCell b rc.1 rc.2 (some (if four then 4 else 2))

/-- `isGameOver()` (lines 587-603): the board is full and no two adjacent
cells are equal. -/
def isGameOver (b : Board) : Bool :=
  if (List.range SIZE).any (fun r => (List.range SIZE).any (fun c =>
      (b.getD r []).getD c none == none)) then false
  else if (List.range SIZE).any (fun r => (List.range SIZE).any (fun c =>
      let cur := (b.getD r []).getD c none
      (decide (r < SIZE - 1) && ((b.getD (r + 1) []).getD c none == cur)) ||
      (decide (c < SIZE - 1) && ((b.getD r []).getD (c + 1) none == cur))))
    then false
  else true

/-! ### Session state -/

/-- One entry of `historyStack` (lines 638-643, 171-183): a deep copy of the
board and score plus `isTimedGame ? timeRemaining : null` and the timed
flag. -/
structure Snapshot where
  board : Board
  score : Int
  timeRemaining : Option Int
  isTimedGame : Bool
deriving DecidableEq

/-- The JSON values read from and written to `localStorage`.
`JSON.stringify`/`JSON.parse` round-trip these values exactly, so the string
serialization itself is not modelled. -/
inductive JSVal where
  | null
  | num (n : Int)
  | bool (b : Bool)
  | arr (elems : List JSVal)
  | obj (fields : List (String × JSVal))

/-- Property lookup on a parsed JSON object. -/
def lookupField : List (String × JSVal) → String → Option JSVal
  | [], _ => none
  | (k, v) :: rest, key => if k = key then some v else lookupField rest key

/-- `state.<k>`: `none` models JavaScript `undefined` (missing property or
non-object access). -/
def getField (v : JSVal) (k : String) : Option JSVal :=
  match v with
  | .obj fs => lookupField fs k
  | _ => none

/-- JavaScript double-negation `!!x` on a read JSON value. -/
def truthy : Option JSVal → Bool
  | some (.bool b) => b
  | some (.num n) => n != 0
  | some .null => false
  | some (.arr _) => true
  | some (.obj _) => true
  | none => false

/-- The complete mutable state of the game script: the module-level `let`
variables plus the two `localStorage` keys.  `timerRunning` models
`timerInterval !== null`; `msgVisible` models
`messageContainer.style.display !== 'none'`. -/
structure GameState where
  board : Board
  score : Int
  bestScore : Int
  won : Bool
  historyStack : List Snapshot
  undosRemaining : Int
  isTimedGame : Bool
  timeRemaining : Int
  timerRunning : Bool
  msgVisible : Bool
  savedGame : Option JSVal
  storedBest : Option Int

/-! ### Persistence (script.js lines 212-297) -/

def encodeCell : Cell → JSVal
  | none => .null
  | some n => .num n

def encodeBoard (b : Board) : JSVal :=
  .arr (b.map (fun row => .arr (row.map encodeCell)))

def encodeOptNum : Option Int → JSVal
  | none => .null
  | some n => .num n

/-- One serialized `historyStack` entry of `saveGameState` (lines 222-227). -/
def encodeSnapshot (sn : Snapshot) : JSVal :=
  .obj [("board", encodeBoard sn.board), ("score", .num sn.score),
    ("timeRemaining", encodeOptNum sn.timeRemaining),
    ("isTimedGame", .bool sn.isTimedGame)]

/-- The object written by `saveGameState` (lines 214-229). -/
def encodeState (g : GameState) : JSVal :=
  .obj [("board", encodeBoard g.board), ("score", .num g.score),
    ("bestScore", .num g.bestScore), ("isTimedGame", .bool g.isTimedGame),
    ("timeRemaining", .num g.timeRemaining), ("won", .bool g.won),
    ("historyStack", .arr (g.historyStack.map encodeSnapshot)),
    ("undosRemaining", .num g.undosRemaining)]

/-- `saveGameState()` (lines 212-234): overwrite the `'gameState'` slot with
the serialized current session.  The `try`/`catch` around the write only
swallows storage failures; the model takes the write to succeed. -/
def saveGameState (g : GameState) : GameState :=
  { g with savedGame := some (encodeState g) }

/-- `cell === null ? null : cell` (line 258): a saved cell is `null` or a
number; any other shape never occurs in a value written by `saveGameState`
and is modelled as empty. -/
def decodeCell : JSVal → Cell
  | .null => none
  | .num n => some n
  | _ => none

/-- `row.map(cell => …)`: a non-array row would throw inside `resumeGame`'s
`try`; such a row never occurs in a saved state and is modelled as `[]`. -/
def decodeRow : JSVal → List Cell
  | .arr cells => cells.map decodeCell
  | _ => []

/-- `Array.isArray(state.board) ? state.board.map(…) : createEmptyBoard()`
(lines 257-259). -/
def decodeBoard : Option JSVal → Board
  | some (.arr rows) => rows.map decodeRow
  | _ => createEmptyBoard

/-- Restoring one `historyStack` item (lines 268-273); the fields are copied
raw, so the decoding mirrors the shapes produced by `encodeSnapshot`. -/
def decodeSnapshot (v : JSVal) : Snapshot :=
  { board :=
      match getField v "board" with
      | some (.arr rows) => rows.map decodeRow
      | _ => []
    score :=
      match getField v "score" with
      | some (.num n) => n
      | _ => 0
    timeRemaining :=
      match getField v "timeRemaining" with
      | some (.num n) => some n
      | _ => none
    isTimedGame :=
      match getField v "isTimedGame" with
      | some (.bool b) => b
      | _ => false }

/-- `updateScoreDisplay()` (lines 382-389): raise `bestScore` to `score` when
exceeded and persist it under the `'bestScore'` key. -/
def updateScoreDisplay (g : GameState) : GameState :=
  if g.bestScore < g.score then
    { g with bestScore := g.score, storedBest := some g.score }
  else g

/-- `resumeGame()` (lines 252-297): re-read every session variable from the
`'gameState'` slot, applying the source's per-field type guards
(`Array.isArray`, `typeof … === 'number'`, `!!`), then re-render, update the
score display, hide any message, and start or stop the timer by mode. -/
def resumeGame (g : GameState) : GameState :=
  match g.savedGame with
  | none => g
  | some sv =>
    updateScoreDisplay
      { g with
        board := decodeBoard (getField sv "board"),
        score :=
          match getField sv "score" with
          | some (.num n) => n
          | _ => 0,
        bestScore :=
          match getField sv "bestScore" with
          | some (.num n) => n
          | _ => g.bestScore,
        isTimedGame := truthy (getField sv "isTimedGame"),
        timeRemaining :=
          match getField sv "timeRemaining" with
          | some (.num n) => n
          | _ => 300,
        won := truthy (getField sv "won"),
        historyStack :=
          match getField sv "historyStack" with
          | some (.arr items) => items.map decodeSnapshot
          | _ => [],
        undosRemaining :=
          match getField sv "undosRemaining" with
          | some (.num n) => n
          | _ => 3,
        msgVisible := false,
        timerRunning := truthy (getField sv "isTimedGame") }

/-! ### Session step functions (script.js lines 84-209, 547-576, 634-677) -/

/-- The pre-move snapshot built at the top of `handleKey` (lines 638-643). -/
def presnap (g : GameState) : Snapshot :=
  { board := g.board, score := g.score,
    timeRemaining := if g.isTimedGame then some g.timeRemaining else none,
    isTimedGame := g.isTimedGame }

/-- `historyStack.push(snapshot); if (historyStack.length > 3)
historyStack.shift();` (lines 660-663). -/
def pushHist (h : List Snapshot) (s : Snapshot) : List Snapshot :=
  if 3 < (h ++ [s]).length then (h ++ [s]).tail else h ++ [s]

/-- `showMessage` with a non-win text (lines 606-626): the overlay becomes
visible, a timed game's countdown stops, and the saved state is cleared. -/
def showMessageOver (g : GameState) : GameState :=
  { g with
    msgVisible := true,
    timerRunning := if g.isTimedGame then false else g.timerRunning,
    savedGame := none }

/-- `handleKey` (lines 634-677) for an arrow key.  A visible message overlay
blocks the handler.  `slideAndCombine`'s `showMessage('You win!')` makes the
overlay visible exactly when `won` flips, which at this level is
`m.won && !g.won`; the win text contains "win", so it neither stops the timer
nor clears the saved state. -/
def handleKey (g : GameState) (d : Dir) (k : Nat) (four : Bool) : GameState :=
  if g.msgVisible then g
  else
    let m := applyMove d g.board g.score g.won
    let g1 : GameState :=
      { g with
        board := m.1, score := m.2.1, won := m.2.2.1,
        msgVisible := m.2.2.1 && !g.won }
    if m.2.2.2 then
      let g2 :=
        { g1 with
          historyStack := pushHist g.historyStack (presnap g),
          board := spawnTile g1.board k four }
      let g3 := saveGameState (updateScoreDisplay g2)
      if isGameOver g3.board then showMessageOver g3 else g3
    else g1

/-- `undoMove()` (lines 186-209): pop the most recent snapshot, restore
board, score and (for a timed snapshot) the remaining time, restarting the
countdown; then update the score display and persist. -/
def undoMove (g : GameState) : GameState :=
  if g.historyStack.isEmpty || g.undosRemaining ≤ 0 then g
  else
    match g.historyStack.getLast? with
    | none => g
    | some last =>
      let g1 : GameState :=
        { g with
          historyStack := g.historyStack.dropLast,
          undosRemaining := g.undosRemaining - 1,
          board := last.board, score := last.score }
      let g2 :=
        if last.isTimedGame then
          { g1 with
            isTimedGame := true,
            timeRemaining := last.timeRemaining.getD g1.timeRemaining,
            timerRunning := true }
        else g1
      saveGameState (updateScoreDisplay g2)

/-- `initGame()` (lines 84-99): fresh board with two spawned tiles, score 0,
`won` reset, message hidden; the state is saved **before** `historyStack` and
`undosRemaining` are reset, so the saved snapshot still carries the previous
session's history and undo budget. -/
def initGame (g : GameState) (k1 : Nat) (f1 : Bool) (k2 : Nat) (f2 : Bool) :
    GameState :=
  let b2 := spawnTile (spawnTile createEmptyBoard k1 f1) k2 f2
  let g1 : GameState :=
    { g with board := b2, score := 0, won := false, msgVisible := false }
  let g3 := saveGameState (updateScoreDisplay g1)
  { g3 with historyStack := [], undosRemaining := 3 }

/-- `startGame(timed, customMinutes)` (lines 102-124): clear the saved state,
set the mode, run `initGame`, then start (`startTimer`) or stop the
countdown.  `customSeconds` stands for `Math.floor(customMinutes * 60)` when
a valid custom time was given. -/
def startGame (g : GameState) (timed : Bool) (customSeconds : Option Int)
    (k1 : Nat) (f1 : Bool) (k2 : Nat) (f2 : Bool) : GameState :=
  let g1 := initGame { g with savedGame := none, isTimedGame := timed } k1 f1 k2 f2
  if timed then
    { g1 with timeRemaining := customSeconds.getD 300, timerRunning := true }
  else
    { g1 with timerRunning := false }

/-- One firing of the `startTimer` interval (lines 557-567): decrement,
persist, and on reaching zero stop the countdown and show the terminal
"Time's up" message. -/
def tick (g : GameState) : GameState :=
  if g.timerRunning then
    let g1 := saveGameState { g with timeRemaining := g.timeRemaining - 1 }
    if g1.timeRemaining ≤ 0 then
      showMessageOver { g1 with timerRunning := false }
    else g1
  else g

/-- The keep-playing button (lines 955-971): hide the overlay and, in a timed
game whose interval was stopped, resume the countdown. -/
def keepPlaying (g : GameState) : GameState :=
  let g1 : GameState := { g with msgVisible := false }
  if g1.isTimedGame && !g1.timerRunning then { g1 with timerRunning := true }
  else g1

/-- The home button (lines 912-923): save the state and pause a timed
game's countdown. -/
def goHome (g : GameState) : GameState :=
  let g1 := saveGameState g
  if g1.isTimedGame then { g1 with timerRunning := false } else g1

/-- A page (re)load: fresh module-level variables, then `initStorage()`
(lines 73-81) restores `bestScore` from the `'bestScore'` key and calls
`updateScoreDisplay`.  Both `localStorage` slots survive. -/
def restartProcess (g : GameState) : GameState :=
  updateScoreDisplay
    { board := [], score := 0, bestScore := (g.storedBest).getD 0,
      won := false, historyStack := [], undosRemaining := 3,
      isTimedGame := false, timeRemaining := 300, timerRunning := false,
      msgVisible := false, savedGame := g.savedGame,
      storedBest := g.storedBest }

/-- The operations a player (or the timer) can perform on the state. -/
inductive Op where
  | move (d : Dir) (k : Nat) (four : Bool)
  | undo
  | resume
  | tick
  | newGame (timed : Bool) (customSeconds : Option Int)
      (k1 : Nat) (f1 : Bool) (k2 : Nat) (f2 : Bool)
  | restart
  | keepGoing
  | home

/-- The transition function of the whole script. -/
def step (g : GameState) : Op → GameState
  | .move d k f => handleKey g d k f
  | .undo => undoMove g
  | .resume => resumeGame g
  | .tick => tick g
  | .newGame t cs k1 f1 k2 f2 => startGame g t cs k1 f1 k2 f2
  | .restart => restartProcess g
  | .keepGoing => keepPlaying g
  | .home => goHome g

/-! ### Reachability invariant -/

/-- A proper `SIZE × SIZE` board. -/
def WFBoard (b : Board) : Prop :=
  b.length = SIZE ∧ ∀ row ∈ b, row.length = SIZE

/-- The board variable is either a proper grid or the initial `[]` it holds
between page load and the first `initGame`/`resumeGame`. -/
def WFGrid (b : Board) : Prop := WFBoard b ∨ b = []

/-- Shape of a session whose serialization currently sits in the
`'gameState'` slot, relative to the in-memory `bestScore`. -/
def SavedOK (gp : GameState) (best : Int) : Prop :=
  gp.bestScore = best ∧ gp.score ≤ gp.bestScore ∧ WFGrid gp.board ∧
  gp.historyStack.length ≤ 3 ∧ (∀ sn ∈ gp.historyStack, WFBoard sn.board) ∧
  0 ≤ gp.undosRemaining ∧ gp.undosRemaining ≤ 3

/-- Invariant of every state reachable by the script: board shape, the
history bound, the undo budget range, score/best-score ordering, agreement of
`bestScore` with its storage slot, and the shape of the saved session. -/
def Inv (g : GameState) : Prop :=
  WFGrid g.board ∧
  g.historyStack.length ≤ 3 ∧
  (∀ sn ∈ g.historyStack, WFBoard sn.board) ∧
  0 ≤ g.undosRemaining ∧ g.undosRemaining ≤ 3 ∧
  g.score ≤ g.bestScore ∧
  0 ≤ g.bestScore ∧
  g.bestScore = (g.storedBest).getD 0 ∧
  (g.savedGame = none ∨
    ∃ gp : GameState, g.savedGame = some (encodeState gp) ∧
      SavedOK gp g.bestScore)

/-! ### Concrete states used to evaluate the theorems -/

/-- The snapshot held by `endedState`. -/
def endedSnap : Snapshot :=
  { board := [[some 2, some 4, some 2, none],
      [some 4, some 2, some 4, some 2],
      [some 2, some 4, some 2, some 4],
      [some 4, some 2, some 4, some 2]],
    score := 96, timeRemaining := none, isTimedGame := false }

/-- An ended session: the board is full with no adjacent equal tiles
(`isGameOver` holds), the game-over overlay is showing and the saved state
was cleared, but one snapshot and the full undo budget remain. -/
def endedState : GameState :=
  { board := [[some 2, some 4, some 2, some 4],
      [some 4, some 2, some 4, some 2],
      [some 2, some 4, some 2, some 4],
      [some 4, some 2, some 4, some 2]],
    score := 100, bestScore := 100, won := false,
    historyStack := [endedSnap],
    undosRemaining := 3, isTimedGame := false, timeRemaining := 300,
    timerRunning := false, msgVisible := true, savedGame := none,
    storedBest := some 100 }

/-- A quiet session: a `2` tile in each row's left cell, so a left move
changes nothing. -/
def stillState : GameState :=
  { board := [[some 2, none, none, none], [some 2, none, none, none],
      [some 2, none, none, none], [some 2, none, none, none]],
    score := 0, bestScore := 0, won := false, historyStack := [],
    undosRemaining := 3, isTimedGame := false, timeRemaining := 300,
    timerRunning := false, msgVisible := false, savedGame := none,
    storedBest := none }

/-- A fresh session with one tile, on which four alternating horizontal
moves all succeed. -/
def fourMoveState : GameState :=
  { board := [[some 2, none, none, none], [none, none, none, none],
      [none, none, none, none], [none, none, none, none]],
    score := 0, bestScore := 0, won := false, historyStack := [],
    undosRemaining := 3, isTimedGame := false, timeRemaining := 300,
    timerRunning := false, msgVisible := false, savedGame := none,
    storedBest := none }

/-- The states after each of the four moves on `fourMoveState` … -/
def fm1 : GameState := handleKey fourMoveState Dir.right 0 false

def fm2 : GameState := handleKey fm1 Dir.left 0 false

def fm3 : GameState := handleKey fm2 Dir.right 0 false

def fm4 : GameState := handleKey fm3 Dir.left 0 false

/-- … and after each of the three undos that follow. -/
def fmU1 : GameState := undoMove fm4

def fmU2 : GameState := undoMove fmU1

def fmU3 : GameState := undoMove fmU2

/-! # Theorems -/

/-! ### The merge loop versus its recursive characterization -/

theorem getD_append_len (T : List Cell) (c : Cell) (R : List Cell) :
    (T ++ c :: R).getD T.length none = c := by
  induction T with
  | nil => rfl
  | cons t ts ih => simpa using ih

theorem set_append_len (T : List Cell) (c x : Cell) (R : List Cell) :
    (T ++ c :: R).set T.length x = T ++ x :: R := by
  induction T with
  | nil => rfl
  | cons t ts ih => simpa using ih

/-- The faithful loop model agrees with the recursive description: running the
loop on `T ++ c :: xs.map some` from index `|T|` with `|xs|` iterations left
produces `T ++ (mergeSeq c xs).1` and accumulates the score delta and the
2048-hit flag of `mergeSeq`. -/
theorem mergeLoop_eq (xs : List Int) :
    ∀ (T : List Cell) (c : Cell) (s : Int) (w : Bool),
    mergeLoop (T ++ c :: xs.map some) s w T.length xs.length =
      (T ++ (mergeSeq c xs).1, s + (mergeSeq c xs).2.1,
        w || (mergeSeq c xs).2.2) := by
  induction xs with
  | nil =>
    intro T c s w
    simp [mergeLoop, mergeSeq]
  | cons b rest ih =>
    intro T c s w
    have hget : (T ++ c :: (b :: rest).map some).getD T.length none = c := by
      simpa using getD_append_len T c ((b :: rest).map some)
    have hget1 :
        (T ++ c :: (b :: rest).map some).getD (T.length + 1) none = some b := by
      have := getD_append_len (T ++ [c]) (some b) (rest.map some)
      simpa [List.append_assoc] using this
    by_cases hc : c = some b
    · subst hc
      -- the loop merges: arr[i] := 2*b, arr[i+1] := null
      have hset :
          ((T ++ some b :: (b :: rest).map some).set T.length
              (some (2 * b))).set (T.length + 1) none =
            T ++ some (2 * b) :: none :: rest.map some := by
        rw [show ((b :: rest).map some) = some b :: rest.map some from rfl]
        rw [set_append_len T (some b) (some (2 * b)) (some b :: rest.map some)]
        have := set_append_len (T ++ [some (2 * b)]) (some b) none
          (rest.map some)
        simpa [List.append_assoc] using this
      have hrec := ih (T ++ [some (2 * b)]) none (s + 2 * b)
        (w || (2 * b == 2048))
      simp only [mergeLoop, hget, hget1, if_pos rfl]
      rw [show (some b).getD 0 = b from rfl] at *
      rw [hset]
      have hlen : T.length + 1 = (T ++ [some (2 * b)]).length := by simp
      rw [show (T ++ some (2 * b) :: none :: rest.map some) =
            ((T ++ [some (2 * b)]) ++ none :: rest.map some) by
          simp [List.append_assoc]]
      rw [hlen, hrec]
      simp [mergeSeq, List.append_assoc, Bool.or_assoc, add_assoc,
        add_comm, add_left_comm, Bool.or_comm, Bool.or_left_comm]
    · -- no merge at this index
      have hrec := ih (T ++ [c]) (some b) s w
      simp only [mergeLoop, hget, hget1, if_neg hc]
      rw [show (T ++ c :: (b :: rest).map some) =
            ((T ++ [c]) ++ (some b) :: rest.map some) by
          simp [List.append_assoc]]
      rw [show T.length + 1 = (T ++ [c]).length by simp]
      rw [hrec]
      match c, hc with
      | none, _ => simp [mergeSeq, List.append_assoc]
      | some a, hc =>
        have hab : ¬ a = b := by
          intro h; exact hc (by rw [h])
        simp [mergeSeq, hab, List.append_assoc]

theorem filter_isSome_eq (l : List Cell) :
    l.filter (fun x => x.isSome) = (l.filterMap id).map some := by
  induction l with
  | nil => rfl
  | cons x xs ih =>
    cases x <;> simp [List.filter, List.filterMap, ih]

/-- The filtered output of `mergeSeq` is `combinePairs` of the dense line. -/
theorem mergeSeq_filter (xs : List Int) :
    ∀ c : Cell,
      (mergeSeq c xs).1.filterMap id = (combinePairs (denseOf c xs)).1 ∧
      (mergeSeq c xs).2.1 = (combinePairs (denseOf c xs)).2.1 ∧
      (mergeSeq c xs).2.2 = (combinePairs (denseOf c xs)).2.2 := by
  induction xs with
  | nil =>
    intro c
    cases c <;> simp [mergeSeq, combinePairs, denseOf, List.filterMap]
  | cons b rest ih =>
    intro c
    cases c with
    | none =>
      have h := ih (some b)
      simpa [mergeSeq, denseOf, List.filterMap] using h
    | some a =>
      by_cases hab : a = b
      · subst hab
        have h := ih none
        simp [mergeSeq, combinePairs, denseOf, List.filterMap] at h ⊢
        exact ⟨h.1, by rw [h.2.1], by rw [h.2.2]⟩
      · have h := ih (some b)
        simp [mergeSeq, combinePairs, denseOf, hab, List.filterMap] at h ⊢
        exact ⟨h.1, by rw [h.2.1], by rw [h.2.2]⟩

/-- `mergeLoop_eq` specialised to the call made by `slideAndCombine`. -/
theorem mergeLoop_eq0 (a : Int) (vs : List Int) (s : Int) (w : Bool) :
    mergeLoop (some a :: vs.map some) s w 0 vs.length =
      ((mergeSeq (some a) vs).1, s + (mergeSeq (some a) vs).2.1,
        w || (mergeSeq (some a) vs).2.2) := by
  simpa using mergeLoop_eq vs [] (some a) s w

/-- Characterization of `slideAndCombine`: the output line is the merged dense
line padded to `SIZE` with empties, the score grows by the merge total, and
`won` becomes true exactly when it was or a merge produced `2048`. -/
theorem slide_spec (line : List Cell) (s : Int) (w : Bool) :
    slideAndCombine line s w =
      ((combinePairs (line.filterMap id)).1.map some ++
          List.replicate
            (SIZE - (combinePairs (line.filterMap id)).1.length) none,
        s + (combinePairs (line.filterMap id)).2.1,
        w || (combinePairs (line.filterMap id)).2.2) := by
  have hfil := filter_isSome_eq line
  cases hd : line.filterMap id with
  | nil =>
    simp only [slideAndCombine]
    rw [hfil, hd]
    simp [mergeLoop, combinePairs]
  | cons a vs =>
    simp only [slideAndCombine]
    rw [hfil, hd]
    simp only [List.map_cons, List.length_cons, List.length_map,
      Nat.add_sub_cancel]
    rw [mergeLoop_eq0 a vs s w]
    have hf := mergeSeq_filter vs (some a)
    rw [filter_isSome_eq, hf.1, hf.2.1, hf.2.2]
    simp [denseOf]

/-- The outputs of `slideAndCombine` as functions of the line alone: the
score delta and the 2048 flag do not depend on the incoming `score`/`won`
values, which are only added to. -/
theorem slide_decomp (line : List Cell) :
    ∃ O d h, ∀ s w, slideAndCombine line s w = (O, s + d, w || h) :=
  ⟨_, _, _, fun s w => slide_spec line s w⟩

/-! ### Facts about `combinePairs` -/

theorem combinePairs_length_le : ∀ xs : List Int,
    (combinePairs xs).1.length ≤ xs.length := by
  intro xs
  induction xs using combinePairs.induct with
  | case1 => simp [combinePairs]
  | case2 a => simp [combinePairs]
  | case3 b rest ih =>
    simp [combinePairs]
    omega
  | case4 a b rest hab ih =>
    simp only [combinePairs, if_neg hab, List.length_cons]
    simp only [List.length_cons] at ih
    omega

theorem combinePairs_eq_self : ∀ xs : List Int,
    (combinePairs xs).1.length = xs.length → combinePairs xs = (xs, 0, false) := by
  intro xs
  induction xs using combinePairs.induct with
  | case1 => intro _; rfl
  | case2 a => intro _; rfl
  | case3 b rest ih =>
    intro hlen
    exfalso
    have hle := combinePairs_length_le rest
    simp [combinePairs] at hlen
    omega
  | case4 a b rest hab ih =>
    intro hlen
    simp only [combinePairs, if_neg hab, List.length_cons] at hlen ⊢
    have h2 := ih (by simp only [List.length_cons]; omega)
    rw [h2]

theorem combinePairs_chain : ∀ xs : List Int,
    List.Chain' (fun a b => a ≠ b) xs → combinePairs xs = (xs, 0, false) := by
  intro xs
  induction xs using combinePairs.induct with
  | case1 => intro _; rfl
  | case2 a => intro _; rfl
  | case3 b rest ih =>
    intro hch
    exact absurd rfl (List.chain'_cons.1 hch).1
  | case4 a b rest hab ih =>
    intro hch
    have h2 := ih (List.chain'_cons.1 hch).2
    simp only [combinePairs, if_neg hab, h2]

/-- Every single sweep decomposes the input into kept singletons and merged
adjacent pairs. -/
theorem combinePairs_blocks : ∀ xs : List Int,
    MergeBlocks xs (combinePairs xs).1 (combinePairs xs).2.1 := by
  intro xs
  induction xs using combinePairs.induct with
  | case1 => exact MergeBlocks.nil
  | case2 a => exact MergeBlocks.keep a MergeBlocks.nil
  | case3 b rest ih =>
    simpa [combinePairs] using MergeBlocks.merge b ih
  | case4 a b rest hab ih =>
    simpa only [combinePairs, if_neg hab] using MergeBlocks.keep a ih

/-! ### List helpers -/

theorem list_set_getD {α : Type} (l : List α) :
    ∀ (n : Nat) (d : α), l.set n (l.getD n d) = l := by
  induction l with
  | nil => intro n d; rfl
  | cons x xs ih =>
    intro n d
    cases n with
    | zero => rfl
    | succ m => simpa using ih m d

theorem eq_of_getD (a : List Cell) :
    ∀ b : List Cell, a.length = b.length →
      (∀ i, i < a.length → a.getD i none = b.getD i none) → a = b := by
  induction a with
  | nil =>
    intro b hlen _
    exact (List.length_eq_zero.1 hlen.symm).symm
  | cons x xs ih =>
    intro b hlen h
    cases b with
    | nil => simp at hlen
    | cons y ys =>
      have hx : x = y := h 0 (by simp)
      have hxs : xs = ys := by
        refine ih ys (by simpa using hlen) ?_
        intro i hi
        have := h (i + 1) (by simpa using Nat.succ_lt_succ hi)
        simpa using this
      rw [hx, hxs]

theorem arraysEqual_iff (a b : List Cell) :
    arraysEqual a b = true ↔ ∀ i, i < a.length → a.getD i none = b.getD i none := by
  unfold arraysEqual
  rw [List.all_eq_true]
  constructor
  · intro h i hi
    have := h i (List.mem_range.2 hi)
    simpa using this
  · intro h i hi
    simpa using h i (List.mem_range.1 hi)

/-- With equal lengths, `arraysEqual` is list equality. -/
theorem arraysEqual_eq (a b : List Cell) (hlen : a.length = b.length) :
    arraysEqual a b = true ↔ a = b := by
  rw [arraysEqual_iff]
  constructor
  · intro h
    exact eq_of_getD a b hlen h
  · intro h
    subst h
    intro i _
    rfl

theorem filterMap_pad (r : List Int) (n : Nat) :
    (r.map some ++ List.replicate n (none : Cell)).filterMap id = r := by
  rw [List.filterMap_append]
  have h1 : (r.map some).filterMap id = r := by
    rw [List.filterMap_map]
    simpa using List.filterMap_some r
  have h2 : (List.replicate n (none : Cell)).filterMap id = [] := by
    induction n with
    | zero => rfl
    | succ m ihm => simpa [List.replicate_succ, List.filterMap] using ihm
  rw [h1, h2, List.append_nil]

/-- The dense content of a resolved line. -/
theorem slide_filterMap (line : List Cell) (s : Int) (w : Bool) :
    ((slideAndCombine line s w).1).filterMap id =
      (combinePairs (line.filterMap id)).1 := by
  rw [slide_spec]
  exact filterMap_pad _ _

/-- Length of a resolved line: exactly `SIZE` whenever the input is not
longer than `SIZE`. -/
theorem slide_length (line : List Cell) (s : Int) (w : Bool)
    (h : line.length ≤ SIZE) : ((slideAndCombine line s w).1).length = SIZE := by
  rw [slide_spec]
  have h1 : (combinePairs (line.filterMap id)).1.length ≤ line.length :=
    le_trans (combinePairs_length_le _) (List.length_filterMap_le _ _)
  simp only [List.length_append, List.length_map, List.length_replicate]
  omega

/-- A line that resolves to itself gains no score and no win flag. -/
theorem slide_fix (line : List Cell) (s : Int) (w : Bool)
    (h : (slideAndCombine line s w).1 = line) :
    slideAndCombine line s w = (line, s, w) := by
  have hd : (combinePairs (line.filterMap id)).1 = line.filterMap id := by
    conv_rhs => rw [← h]
    rw [slide_filterMap]
  have hcp := combinePairs_eq_self (line.filterMap id) (by rw [hd])
  have h1 : (combinePairs (line.filterMap id)).1.map some ++
      List.replicate (SIZE - (combinePairs (line.filterMap id)).1.length) none
        = line := by
    have h2 := h
    rw [slide_spec] at h2
    exact h2
  rw [slide_spec, hcp]
  simp only [add_zero, Bool.or_false]
  rw [hd] at h1
  rw [h1]

/-! ### Moves that change nothing -/

theorem arraysEqual_self (a : List Cell) : arraysEqual a a = true := by
  rw [arraysEqual_iff]
  intro i _
  rfl

theorem moveRowsLeft_nochange : ∀ (b : List (List Cell)) (s : Int) (w : Bool),
    (∀ row ∈ b, row.length = SIZE) →
    (moveRowsLeft b s w).2.2.2 = false →
    moveRowsLeft b s w = (b, s, w, false) := by
  intro b
  induction b with
  | nil => intro s w _ _; rfl
  | cons row rest ih =>
    intro s w hwf h
    by_cases hk : arraysEqual row (slideAndCombine row s w).1 = true
    · have hrow : row.length = SIZE := hwf row (by simp)
      have hlen : (slideAndCombine row s w).1.length = SIZE :=
        slide_length row s w (le_of_eq hrow)
      have heq : row = (slideAndCombine row s w).1 :=
        (arraysEqual_eq _ _ (by rw [hrow, hlen])).1 hk
      have hfix := slide_fix row s w heq.symm
      simp only [moveRowsLeft, hfix, arraysEqual_self] at h ⊢
      simp only [if_true, reduceIte] at h ⊢
      rw [ih s w (fun r hr => hwf r (by simp [hr])) h]
    · have hk' : arraysEqual row (slideAndCombine row s w).1 = false := by
        simpa using hk
      simp [moveRowsLeft, hk'] at h

theorem moveRowsRight_nochange : ∀ (b : List (List Cell)) (s : Int) (w : Bool),
    (∀ row ∈ b, row.length = SIZE) →
    (moveRowsRight b s w).2.2.2 = false →
    moveRowsRight b s w = (b, s, w, false) := by
  intro b
  induction b with
  | nil => intro s w _ _; rfl
  | cons row rest ih =>
    intro s w hwf h
    by_cases hk : arraysEqual row (slideAndCombine row.reverse s w).1.reverse = true
    · have hrow : row.length = SIZE := hwf row (by simp)
      have hlen : (slideAndCombine row.reverse s w).1.reverse.length = SIZE := by
        rw [List.length_reverse]
        exact slide_length _ s w (by rw [List.length_reverse, hrow])
      have heq : row = (slideAndCombine row.reverse s w).1.reverse :=
        (arraysEqual_eq _ _ (by rw [hrow, hlen])).1 hk
      have hO : (slideAndCombine row.reverse s w).1 = row.reverse := by
        conv_rhs => rw [heq]
        rw [List.reverse_reverse]
      have hfix := slide_fix row.reverse s w hO
      simp only [moveRowsRight, hfix, List.reverse_reverse,
        arraysEqual_self] at h ⊢
      simp only [if_true, reduceIte] at h ⊢
      rw [ih s w (fun r hr => hwf r (by simp [hr])) h]
    · have hk' : arraysEqual row (slideAndCombine row.reverse s w).1.reverse
          = false := by simpa using hk
      simp [moveRowsRight, hk'] at h

theorem getColumn_length (b : Board) (c : Nat) :
    (getColumn b c).length = SIZE := by
  simp [getColumn]

theorem getColumn_getD (b : Board) (c r : Nat) (h : r < SIZE) :
    (getColumn b c).getD r none = (b.getD r []).getD c none := by
  unfold SIZE at h
  interval_cases r <;> rfl

theorem setColumn_getColumn (b : Board) (c : Nat) :
    setColumn b c (getColumn b c) = b := by
  unfold setColumn
  have haux : ∀ rs : List Nat,
      (∀ r ∈ rs, (getColumn b c).getD r none = (b.getD r []).getD c none) →
      rs.foldl (fun bb r =>
        bb.set r ((bb.getD r []).set c ((getColumn b c).getD r none))) b = b := by
    intro rs
    induction rs with
    | nil => intro _; rfl
    | cons r rs ihr =>
      intro hmem
      have h1 := hmem r (by simp)
      have hstep : b.set r ((b.getD r []).set c ((getColumn b c).getD r none))
          = b := by
        rw [h1, list_set_getD, list_set_getD]
      simp only [List.foldl_cons, hstep]
      exact ihr (fun r' hr' => hmem r' (by simp [hr']))
  exact haux (List.range SIZE)
    (fun r hr => getColumn_getD b c r (List.mem_range.1 hr))

theorem colChanged_self (a : List Cell) : colChanged a a = false := by
  simp [colChanged]

theorem colChanged_false {col O : List Cell} (h : colChanged col O = false)
    (h1 : col.length = SIZE) (h2 : O.length = SIZE) : col = O := by
  refine eq_of_getD col O (by rw [h1, h2]) ?_
  intro i hi
  rw [h1] at hi
  unfold colChanged at h
  rw [List.any_eq_false] at h
  have h3 := h i (List.mem_range.2 hi)
  simpa using h3

theorem upFold_ch_true : ∀ (cs : List Nat) (b : Board) (s : Int) (w : Bool),
    ((cs.foldl upStep (b, s, w, true)).2.2.2) = true := by
  intro cs
  induction cs with
  | nil => intro b s w; rfl
  | cons c cs ih =>
    intro b s w
    simp only [List.foldl_cons, upStep, Bool.true_or]
    exact ih _ _ _

theorem downFold_ch_true : ∀ (cs : List Nat) (b : Board) (s : Int) (w : Bool),
    ((cs.foldl downStep (b, s, w, true)).2.2.2) = true := by
  intro cs
  induction cs with
  | nil => intro b s w; rfl
  | cons c cs ih =>
    intro b s w
    simp only [List.foldl_cons, downStep, Bool.true_or]
    exact ih _ _ _

theorem upFold_nochange : ∀ (cs : List Nat) (b : Board) (s : Int) (w : Bool),
    ((cs.foldl upStep (b, s, w, false)).2.2.2) = false →
    cs.foldl upStep (b, s, w, false) = (b, s, w, false) := by
  intro cs
  induction cs with
  | nil => intro b s w _; rfl
  | cons c cs ih =>
    intro b s w h
    by_cases hcc : colChanged (getColumn b c)
        (slideAndCombine (getColumn b c) s w).1 = false
    · have hcol : getColumn b c = (slideAndCombine (getColumn b c) s w).1 :=
        colChanged_false hcc (getColumn_length b c)
          (slide_length _ s w (le_of_eq (getColumn_length b c)))
      have hfix := slide_fix (getColumn b c) s w hcol.symm
      simp only [List.foldl_cons, upStep, hfix, setColumn_getColumn,
        colChanged_self, Bool.or_false] at h ⊢
      exact ih b s w h
    · have hcc' : colChanged (getColumn b c)
          (slideAndCombine (getColumn b c) s w).1 = true := by simpa using hcc
      exfalso
      simp only [List.foldl_cons, upStep, hcc', Bool.false_or,
        upFold_ch_true] at h
      exact absurd h (by simp)

theorem downFold_nochange : ∀ (cs : List Nat) (b : Board) (s : Int) (w : Bool),
    ((cs.foldl downStep (b, s, w, false)).2.2.2) = false →
    cs.foldl downStep (b, s, w, false) = (b, s, w, false) := by
  intro cs
  induction cs with
  | nil => intro b s w _; rfl
  | cons c cs ih =>
    intro b s w h
    by_cases hcc : colChanged (getColumn b c)
        (slideAndCombine (getColumn b c).reverse s w).1.reverse = false
    · have hcol : getColumn b c =
          (slideAndCombine (getColumn b c).reverse s w).1.reverse :=
        colChanged_false hcc (getColumn_length b c)
          (by rw [List.length_reverse]
              exact slide_length _ s w
                (by rw [List.length_reverse, getColumn_length]))
      have hO : (slideAndCombine (getColumn b c).reverse s w).1 =
          (getColumn b c).reverse := by
        conv_rhs => rw [hcol]
        rw [List.reverse_reverse]
      have hfix := slide_fix (getColumn b c).reverse s w hO
      simp only [List.foldl_cons, downStep, hfix, List.reverse_reverse,
        setColumn_getColumn, colChanged_self, Bool.or_false] at h ⊢
      exact ih b s w h
    · have hcc' : colChanged (getColumn b c)
          (slideAndCombine (getColumn b c).reverse s w).1.reverse = true := by
        simpa using hcc
      exfalso
      simp only [List.foldl_cons, downStep, hcc', Bool.false_or,
        downFold_ch_true] at h
      exact absurd h (by simp)

/-- A move whose `changed` flag is false leaves board, score and `won`
untouched (the rows of a session board have length `SIZE`). -/
theorem applyMove_nochange (d : Dir) (b : Board) (s : Int) (w : Bool)
    (hwf : ∀ row ∈ b, row.length = SIZE)
    (h : (applyMove d b s w).2.2.2 = false) :
    applyMove d b s w = (b, s, w, false) := by
  cases d with
  | left => exact moveRowsLeft_nochange b s w hwf h
  | right => exact moveRowsRight_nochange b s w hwf h
  | up => exact upFold_nochange (List.range SIZE) b s w h
  | down => exact downFold_nochange (List.range SIZE) b s w h

theorem slide_empty (s : Int) (w : Bool) :
    slideAndCombine [none, none, none, none] s w
      = ([none, none, none, none], s, w) := by
  rw [slide_spec]
  simp [List.filterMap, combinePairs, SIZE, List.replicate_succ]

theorem getColumn_nil (c : Nat) : getColumn [] c = [none, none, none, none] := by
  simp [getColumn, SIZE, List.range_succ, List.getD]

theorem setColumn_nil (c : Nat) (col : List Cell) : setColumn [] c col = [] := by
  unfold setColumn
  have haux : ∀ rs : List Nat, rs.foldl (fun bb r =>
      bb.set r ((bb.getD r []).set c (col.getD r none))) ([] : Board) = [] := by
    intro rs
    induction rs with
    | nil => rfl
    | cons r rs ihr => simpa using ihr
  exact haux (List.range SIZE)

theorem upStep_nil (s : Int) (w : Bool) (ch : Bool) (c : Nat) :
    upStep ([], s, w, ch) c = ([], s, w, ch) := by
  simp only [upStep, getColumn_nil, slide_empty, setColumn_nil,
    colChanged_self, Bool.or_false]

theorem downStep_nil (s : Int) (w : Bool) (ch : Bool) (c : Nat) :
    downStep ([], s, w, ch) c = ([], s, w, ch) := by
  simp only [downStep, getColumn_nil, List.reverse_cons, List.reverse_nil,
    List.nil_append, List.cons_append, slide_empty, setColumn_nil,
    colChanged_self, Bool.or_false]

/-- All four move functions return `([], s, w, false)` on the empty board the
script holds before the first game starts. -/
theorem applyMove_empty (d : Dir) (s : Int) (w : Bool) :
    applyMove d [] s w = ([], s, w, false) := by
  cases d with
  | left => rfl
  | right => rfl
  | up =>
    show (List.range SIZE).foldl upStep ([], s, w, false) = ([], s, w, false)
    simp [SIZE, List.range_succ, upStep_nil]
  | down =>
    show (List.range SIZE).foldl downStep ([], s, w, false) = ([], s, w, false)
    simp [SIZE, List.range_succ, downStep_nil]

/-! ### Score, win-flag and board outputs of a move are separable -/

theorem moveRowsLeft_decomp : ∀ b : List (List Cell),
    ∃ B dd hh cc, ∀ (s : Int) (w : Bool),
      moveRowsLeft b s w = (B, s + dd, w || hh, cc) := by
  intro b
  induction b with
  | nil => exact ⟨[], 0, false, false, fun s w => by simp [moveRowsLeft]⟩
  | cons row rest ih =>
    obtain ⟨O, d1, h1, hs⟩ := slide_decomp row
    obtain ⟨B, d2, h2, cc, hr⟩ := ih
    by_cases hk : arraysEqual row O = true
    · refine ⟨row :: B, d1 + d2, h1 || h2, cc, fun s w => ?_⟩
      simp only [moveRowsLeft, hs s w, hr, hk, reduceIte]
      simp [add_assoc, Bool.or_assoc]
    · have hk' : arraysEqual row O = false := by simpa using hk
      refine ⟨O :: B, d1 + d2, h1 || h2, true, fun s w => ?_⟩
      simp only [moveRowsLeft, hs s w, hr, hk', Bool.false_eq_true, reduceIte]
      simp [add_assoc, Bool.or_assoc]

theorem moveRowsRight_decomp : ∀ b : List (List Cell),
    ∃ B dd hh cc, ∀ (s : Int) (w : Bool),
      moveRowsRight b s w = (B, s + dd, w || hh, cc) := by
  intro b
  induction b with
  | nil => exact ⟨[], 0, false, false, fun s w => by simp [moveRowsRight]⟩
  | cons row rest ih =>
    obtain ⟨O, d1, h1, hs⟩ := slide_decomp row.reverse
    obtain ⟨B, d2, h2, cc, hr⟩ := ih
    by_cases hk : arraysEqual row O.reverse = true
    · refine ⟨row :: B, d1 + d2, h1 || h2, cc, fun s w => ?_⟩
      simp only [moveRowsRight, hs s w, hr, hk, reduceIte]
      simp [add_assoc, Bool.or_assoc]
    · have hk' : arraysEqual row O.reverse = false := by simpa using hk
      refine ⟨O.reverse :: B, d1 + d2, h1 || h2, true, fun s w => ?_⟩
      simp only [moveRowsRight, hs s w, hr, hk', Bool.false_eq_true, reduceIte]
      simp [add_assoc, Bool.or_assoc]

theorem upFold_decomp : ∀ (cs : List Nat) (b : Board) (ch : Bool),
    ∃ B dd hh cc, ∀ (s : Int) (w : Bool),
      cs.foldl upStep (b, s, w, ch) = (B, s + dd, w || hh, ch || cc) := by
  intro cs
  induction cs with
  | nil =>
    intro b ch
    exact ⟨b, 0, false, false, fun s w => by simp⟩
  | cons c cs ih =>
    intro b ch
    obtain ⟨O, d1, h1, hs⟩ := slide_decomp (getColumn b c)
    obtain ⟨B, d2, h2, cc, hr⟩ :=
      ih (setColumn b c O) (ch || colChanged (getColumn b c) O)
    refine ⟨B, d1 + d2, h1 || h2, colChanged (getColumn b c) O || cc,
      fun s w => ?_⟩
    simp only [List.foldl_cons, upStep, hs s w]
    rw [hr (s + d1) (w || h1)]
    simp [add_assoc, Bool.or_assoc]

theorem downFold_decomp : ∀ (cs : List Nat) (b : Board) (ch : Bool),
    ∃ B dd hh cc, ∀ (s : Int) (w : Bool),
      cs.foldl downStep (b, s, w, ch) = (B, s + dd, w || hh, ch || cc) := by
  intro cs
  induction cs with
  | nil =>
    intro b ch
    exact ⟨b, 0, false, false, fun s w => by simp⟩
  | cons c cs ih =>
    intro b ch
    obtain ⟨O, d1, h1, hs⟩ := slide_decomp (getColumn b c).reverse
    obtain ⟨B, d2, h2, cc, hr⟩ :=
      ih (setColumn b c O.reverse) (ch || colChanged (getColumn b c) O.reverse)
    refine ⟨B, d1 + d2, h1 || h2, colChanged (getColumn b c) O.reverse || cc,
      fun s w => ?_⟩
    simp only [List.foldl_cons, downStep, hs s w]
    rw [hr (s + d1) (w || h1)]
    simp [add_assoc, Bool.or_assoc]

/-- The board output, score delta, 2048-hit flag and `changed` flag of a move
depend only on the direction and the board, not on the incoming score or win
flag, which are respectively added to and or-ed into. -/
theorem applyMove_decomp (d : Dir) (b : Board) :
    ∃ B dd hh cc, ∀ (s : Int) (w : Bool),
      applyMove d b s w = (B, s + dd, w || hh, cc) := by
  cases d with
  | left => exact moveRowsLeft_decomp b
  | right => exact moveRowsRight_decomp b
  | up =>
    obtain ⟨B, dd, hh, cc, hfold⟩ := upFold_decomp (List.range SIZE) b false
    exact ⟨B, dd, hh, cc, fun s w => by
      simpa [applyMove, moveColsUp] using hfold s w⟩
  | down =>
    obtain ⟨B, dd, hh, cc, hfold⟩ := downFold_decomp (List.range SIZE) b false
    exact ⟨B, dd, hh, cc, fun s w => by
      simpa [applyMove, moveColsDown] using hfold s w⟩

/-! ### Moves preserve the board shape -/

theorem setRow_wf (bb : Board) (r c : Nat) (v : Cell)
    (hwf : ∀ row ∈ bb, row.length = SIZE) :
    (bb.set r ((bb.getD r []).set c v)).length = bb.length ∧
      ∀ row ∈ bb.set r ((bb.getD r []).set c v), row.length = SIZE := by
  by_cases hr : r < bb.length
  · refine ⟨by simp, ?_⟩
    intro row hrow
    rcases List.mem_or_eq_of_mem_set hrow with hmem | heq
    · exact hwf row hmem
    · have hmem2 : bb.getD r [] ∈ bb := by
        rw [List.getD_eq_getElem bb [] hr]
        exact List.getElem_mem hr
      rw [heq, List.length_set]
      exact hwf _ hmem2
  · have hset : bb.set r ((bb.getD r []).set c v) = bb :=
      List.set_eq_of_length_le (by omega)
    rw [hset]
    exact ⟨rfl, hwf⟩

/-- `setColumn` preserves the board shape. -/
theorem setColumn_wf (b : Board) (c : Nat) (col : List Cell)
    (hwf : ∀ row ∈ b, row.length = SIZE) :
    (setColumn b c col).length = b.length ∧
      ∀ row ∈ setColumn b c col, row.length = SIZE := by
  unfold setColumn
  have haux : ∀ (rs : List Nat) (bb : Board), bb.length = b.length →
      (∀ row ∈ bb, row.length = SIZE) →
      ((rs.foldl (fun bb r =>
          bb.set r ((bb.getD r []).set c (col.getD r none))) bb).length
        = b.length ∧
        ∀ row ∈ rs.foldl (fun bb r =>
          bb.set r ((bb.getD r []).set c (col.getD r none))) bb,
          row.length = SIZE) := by
    intro rs
    induction rs with
    | nil => intro bb hlen hbb; exact ⟨hlen, hbb⟩
    | cons r rs ihr =>
      intro bb hlen hbb
      obtain ⟨hl1, hw1⟩ := setRow_wf bb r c (col.getD r none) hbb
      simp only [List.foldl_cons]
      exact ihr _ (by rw [hl1, hlen]) hw1
  exact haux (List.range SIZE) b rfl hwf

theorem moveRowsLeft_wf : ∀ (b : List (List Cell)) (s : Int) (w : Bool),
    (∀ row ∈ b, row.length = SIZE) →
    (moveRowsLeft b s w).1.length = b.length ∧
      ∀ row ∈ (moveRowsLeft b s w).1, row.length = SIZE := by
  intro b
  induction b with
  | nil => intro s w _; simp [moveRowsLeft]
  | cons row rest ih =>
    intro s w hwf
    have hrow : row.length = SIZE := hwf row (List.mem_cons_self row rest)
    have hrest : ∀ r ∈ rest, r.length = SIZE :=
      fun r hr => hwf r (List.mem_cons_of_mem _ hr)
    have hslen : (slideAndCombine row s w).1.length = SIZE :=
      slide_length row s w (le_of_eq hrow)
    obtain ⟨hl, hr2⟩ := ih (slideAndCombine row s w).2.1
      (slideAndCombine row s w).2.2 hrest
    by_cases hk : arraysEqual row (slideAndCombine row s w).1 = true
    · simp only [moveRowsLeft, hk, reduceIte]
      refine ⟨by simpa using hl, ?_⟩
      intro r hr
      rcases List.mem_cons.1 hr with rfl | hmem
      · exact hrow
      · exact hr2 r hmem
    · have hk' : arraysEqual row (slideAndCombine row s w).1 = false := by
        simpa using hk
      simp only [moveRowsLeft, hk', Bool.false_eq_true, reduceIte]
      refine ⟨by simpa using hl, ?_⟩
      intro r hr
      rcases List.mem_cons.1 hr with rfl | hmem
      · exact hslen
      · exact hr2 r hmem

theorem moveRowsRight_wf : ∀ (b : List (List Cell)) (s : Int) (w : Bool),
    (∀ row ∈ b, row.length = SIZE) →
    (moveRowsRight b s w).1.length = b.length ∧
      ∀ row ∈ (moveRowsRight b s w).1, row.length = SIZE := by
  intro b
  induction b with
  | nil => intro s w _; simp [moveRowsRight]
  | cons row rest ih =>
    intro s w hwf
    have hrow : row.length = SIZE := hwf row (List.mem_cons_self row rest)
    have hrest : ∀ r ∈ rest, r.length = SIZE :=
      fun r hr => hwf r (List.mem_cons_of_mem _ hr)
    have hslen : (slideAndCombine row.reverse s w).1.reverse.length = SIZE := by
      rw [List.length_reverse]
      exact slide_length _ s w (by rw [List.length_reverse, hrow])
    obtain ⟨hl, hr2⟩ := ih (slideAndCombine row.reverse s w).2.1
      (slideAndCombine row.reverse s w).2.2 hrest
    by_cases hk : arraysEqual row (slideAndCombine row.reverse s w).1.reverse
        = true
    · simp only [moveRowsRight, hk, reduceIte]
      refine ⟨by simpa using hl, ?_⟩
      intro r hr
      rcases List.mem_cons.1 hr with rfl | hmem
      · exact hrow
      · exact hr2 r hmem
    · have hk' : arraysEqual row (slideAndCombine row.reverse s w).1.reverse
          = false := by simpa using hk
      simp only [moveRowsRight, hk', Bool.false_eq_true, reduceIte]
      refine ⟨by simpa using hl, ?_⟩
      intro r hr
      rcases List.mem_cons.1 hr with rfl | hmem
      · exact hslen
      · exact hr2 r hmem

theorem upFold_wf : ∀ (cs : List Nat) (b : Board) (s : Int) (w : Bool)
    (ch : Bool), (∀ row ∈ b, row.length = SIZE) →
    ((cs.foldl upStep (b, s, w, ch)).1.length = b.length ∧
      ∀ row ∈ (cs.foldl upStep (b, s, w, ch)).1, row.length = SIZE) := by
  intro cs
  induction cs with
  | nil => intro b s w ch hwf; exact ⟨rfl, hwf⟩
  | cons c cs ih =>
    intro b s w ch hwf
    obtain ⟨hl1, hw1⟩ :=
      setColumn_wf b c (slideAndCombine (getColumn b c) s w).1 hwf
    simp only [List.foldl_cons, upStep]
    obtain ⟨hl2, hw2⟩ := ih (setColumn b c (slideAndCombine (getColumn b c) s w).1)
      (slideAndCombine (getColumn b c) s w).2.1
      (slideAndCombine (getColumn b c) s w).2.2
      (ch || colChanged (getColumn b c) (slideAndCombine (getColumn b c) s w).1)
      hw1
    exact ⟨by rw [hl2, hl1], hw2⟩

theorem downFold_wf : ∀ (cs : List Nat) (b : Board) (s : Int) (w : Bool)
    (ch : Bool), (∀ row ∈ b, row.length = SIZE) →
    ((cs.foldl downStep (b, s, w, ch)).1.length = b.length ∧
      ∀ row ∈ (cs.foldl downStep (b, s, w, ch)).1, row.length = SIZE) := by
  intro cs
  induction cs with
  | nil => intro b s w ch hwf; exact ⟨rfl, hwf⟩
  | cons c cs ih =>
    intro b s w ch hwf
    obtain ⟨hl1, hw1⟩ :=
      setColumn_wf b c (slideAndCombine (getColumn b c).reverse s w).1.reverse hwf
    simp only [List.foldl_cons, downStep]
    obtain ⟨hl2, hw2⟩ := ih
      (setColumn b c (slideAndCombine (getColumn b c).reverse s w).1.reverse)
      (slideAndCombine (getColumn b c).reverse s w).2.1
      (slideAndCombine (getColumn b c).reverse s w).2.2
      (ch || colChanged (getColumn b c)
        (slideAndCombine (getColumn b c).reverse s w).1.reverse)
      hw1
    exact ⟨by rw [hl2, hl1], hw2⟩

/-- A move on a well-formed board yields a well-formed board. -/
theorem applyMove_wf (d : Dir) (b : Board) (s : Int) (w : Bool)
    (hwf : WFBoard b) : WFBoard (applyMove d b s w).1 := by
  obtain ⟨hlen, hrows⟩ := hwf
  cases d with
  | left =>
    obtain ⟨h1, h2⟩ := moveRowsLeft_wf b s w hrows
    rw [hlen] at h1
    exact ⟨h1, h2⟩
  | right =>
    obtain ⟨h1, h2⟩ := moveRowsRight_wf b s w hrows
    rw [hlen] at h1
    exact ⟨h1, h2⟩
  | up =>
    obtain ⟨h1, h2⟩ := upFold_wf (List.range SIZE) b s w false hrows
    exact ⟨by rw [show (applyMove Dir.up b s w).1
      = ((List.range SIZE).foldl upStep (b, s, w, false)).1 from rfl, h1, hlen],
      h2⟩
  | down =>
    obtain ⟨h1, h2⟩ := downFold_wf (List.range SIZE) b s w false hrows
    exact ⟨by rw [show (applyMove Dir.down b s w).1
      = ((List.range SIZE).foldl downStep (b, s, w, false)).1 from rfl, h1,
      hlen], h2⟩

/-! ### Persistence round trip -/

theorem decodeCell_encode (c : Cell) : decodeCell (encodeCell c) = c := by
  cases c <;> rfl

theorem decodeRow_encode (row : List Cell) :
    decodeRow (.arr (row.map encodeCell)) = row := by
  simp [decodeRow, List.map_map, Function.comp_def, decodeCell_encode]

theorem decodeBoard_encode (b : Board) :
    decodeBoard (some (encodeBoard b)) = b := by
  simp only [decodeBoard, encodeBoard, List.map_map]
   
  have : ∀ row : List Cell,
      decodeRow (JSVal.arr (row.map encodeCell)) = row := decodeRow_encode
  simp [Function.comp_def, this]

theorem decodeSnapshot_encode (sn : Snapshot) :
    decodeSnapshot (encodeSnapshot sn) = sn := by
  cases sn with
  | mk bd sc tr tg =>
    cases tr <;>
      simp [decodeSnapshot, encodeSnapshot, getField, lookupField,
        encodeOptNum, encodeBoard, List.map_map, Function.comp_def,
        decodeRow_encode]

/-- `resumeGame` on a slot written by `saveGameState` restores every persisted
field of the saved session (and then runs `updateScoreDisplay`). -/
theorem resume_encode (gp h : GameState) :
    resumeGame { h with savedGame := some (encodeState gp) } =
      updateScoreDisplay
        { h with
          savedGame := some (encodeState gp),
          board := gp.board, score := gp.score, bestScore := gp.bestScore,
          isTimedGame := gp.isTimedGame, timeRemaining := gp.timeRemaining,
          won := gp.won, historyStack := gp.historyStack,
          undosRemaining := gp.undosRemaining,
          msgVisible := false, timerRunning := gp.isTimedGame } := by
  unfold resumeGame
  simp only [encodeState, getField, lookupField]
  norm_num
  simp [truthy, decodeBoard_encode, List.map_map, Function.comp_def,
    decodeSnapshot_encode]

/-! ### Session-level helper lemmas -/

/-- `updateScoreDisplay` raises `bestScore` to `max bestScore score` and
mirrors a raise into the `'bestScore'` storage slot; nothing else changes. -/
theorem updateScoreDisplay_spec (g : GameState) :
    updateScoreDisplay g =
      { g with
        bestScore := max g.bestScore g.score,
        storedBest :=
          if g.bestScore < g.score then some g.score else g.storedBest } := by
  unfold updateScoreDisplay
  by_cases h : g.bestScore < g.score
  · rw [if_pos h, if_pos h, max_eq_right (le_of_lt h)]
  · rw [if_neg h, if_neg h, max_eq_left (by omega)]

theorem pushHist_length (h : List Snapshot) (s : Snapshot)
    (hlen : h.length ≤ 3) : (pushHist h s).length ≤ 3 := by
  unfold pushHist
  split
  · simp
    omega
  · rename_i hc
    simp at hc ⊢
    omega

theorem pushHist_mem (h : List Snapshot) (s : Snapshot) :
    ∀ x ∈ pushHist h s, x ∈ h ∨ x = s := by
  intro x hx
  unfold pushHist at hx
  have hx2 : x ∈ h ++ [s] := by
    by_cases hc : 3 < (h ++ [s]).length
    · rw [if_pos hc] at hx
      exact List.mem_of_mem_tail hx
    · rw [if_neg hc] at hx
      exact hx
  rcases List.mem_append.1 hx2 with hm | hm
  · exact Or.inl hm
  · exact Or.inr (by simpa using hm)

theorem createEmptyBoard_wf : WFBoard createEmptyBoard := by
  constructor
  · simp [createEmptyBoard]
  · intro row hrow
    have := List.eq_of_mem_replicate hrow
    rw [this]
    simp

theorem spawnTile_wf (b : Board) (k : Nat) (four : Bool) (hwf : WFBoard b) :
    WFBoard (spawnTile b k four) := by
  obtain ⟨hlen, hrows⟩ := hwf
  unfold spawnTile
  by_cases he : (emptyCells b).isEmpty = true
  · simp only [he, reduceIte]
    exact ⟨hlen, hrows⟩
  · have he' : (emptyCells b).isEmpty = false := by simpa using he
    simp only [he', Bool.false_eq_true, reduceIte]
    unfold setCell
    obtain ⟨h1, h2⟩ := setRow_wf b
      ((emptyCells b).getD (k % (emptyCells b).length) (0, 0)).1
      ((emptyCells b).getD (k % (emptyCells b).length) (0, 0)).2
      (some (if four then 4 else 2)) hrows
    exact ⟨h1.trans hlen, h2⟩

/-- A visible message overlay makes `handleKey` a no-op. -/
theorem handleKey_msg (g : GameState) (d : Dir) (k : Nat) (four : Bool)
    (hm : g.msgVisible = true) : handleKey g d k four = g := by
  unfold handleKey
  rw [hm]
  simp

/-- A direction whose move leaves the board unchanged makes `handleKey` the
identity: no snapshot push, no spawn, no score change, no save. -/
theorem handleKey_nochange (g : GameState) (d : Dir) (k : Nat) (four : Bool)
    (hwf : ∀ row ∈ g.board, row.length = SIZE)
    (hch : (applyMove d g.board g.score g.won).2.2.2 = false) :
    handleKey g d k four = g := by
  by_cases hm : g.msgVisible = true
  · exact handleKey_msg g d k four hm
  · have hm' : g.msgVisible = false := by simpa using hm
    have hmv : applyMove d g.board g.score g.won = (g.board, g.score, g.won, false) :=
      applyMove_nochange d g.board g.score g.won hwf hch
    unfold handleKey
    rw [hm']
    simp only [Bool.false_eq_true, reduceIte, hmv, Bool.and_not_self]
    cases g
    simp_all

/-- The moved branch of `handleKey`, written out flat. -/
theorem handleKey_moved (g : GameState) (d : Dir) (k : Nat) (four : Bool)
    (hm : g.msgVisible = false)
    (hch : (applyMove d g.board g.score g.won).2.2.2 = true) :
    handleKey g d k four =
      (if isGameOver (spawnTile (applyMove d g.board g.score g.won).1 k four)
       then showMessageOver (saveGameState (updateScoreDisplay
         { g with
           board := spawnTile (applyMove d g.board g.score g.won).1 k four,
           score := (applyMove d g.board g.score g.won).2.1,
           won := (applyMove d g.board g.score g.won).2.2.1,
           msgVisible := (applyMove d g.board g.score g.won).2.2.1 && !g.won,
           historyStack := pushHist g.historyStack (presnap g) }))
       else saveGameState (updateScoreDisplay
         { g with
           board := spawnTile (applyMove d g.board g.score g.won).1 k four,
           score := (applyMove d g.board g.score g.won).2.1,
           won := (applyMove d g.board g.score g.won).2.2.1,
           msgVisible := (applyMove d g.board g.score g.won).2.2.1 && !g.won,
           historyStack := pushHist g.historyStack (presnap g) })) := by
  unfold handleKey
  rw [hm]
  simp only [Bool.false_eq_true, reduceIte, hch, updateScoreDisplay_spec,
    saveGameState]

/-! ### The reachability invariant is preserved -/

theorem inv_save_update (X : GameState)
    (h1 : WFGrid X.board) (h2 : X.historyStack.length ≤ 3)
    (h3 : ∀ sn ∈ X.historyStack, WFBoard sn.board)
    (h4 : 0 ≤ X.undosRemaining) (h5 : X.undosRemaining ≤ 3)
    (h6 : 0 ≤ X.bestScore) (h7 : X.bestScore = X.storedBest.getD 0) :
    Inv (saveGameState (updateScoreDisplay X)) ∧
      X.bestScore ≤ (saveGameState (updateScoreDisplay X)).bestScore := by
  rw [updateScoreDisplay_spec]
  constructor
  · refine ⟨h1, h2, h3, h4, h5, le_max_right _ _,
      le_trans h6 (le_max_left _ _), ?_, Or.inr ⟨{ X with
        bestScore := max X.bestScore X.score,
        storedBest :=
          if X.bestScore < X.score then some X.score else X.storedBest },
        rfl, rfl, le_max_right _ _, h1, h2, h3, h4, h5⟩⟩
    by_cases hc : X.bestScore < X.score
    · rw [if_pos hc, max_eq_right (le_of_lt hc)]
      rfl
    · rw [if_neg hc, max_eq_left (by omega)]
      exact h7
  · exact le_max_left _ _

theorem inv_showOver (Y : GameState) (hInv : Inv Y) :
    Inv (showMessageOver Y) ∧ Y.bestScore ≤ (showMessageOver Y).bestScore := by
  obtain ⟨i1, i2, i3, i4, i5, i6, i7, i8, _⟩ := hInv
  exact ⟨⟨i1, i2, i3, i4, i5, i6, i7, i8, Or.inl rfl⟩, le_refl _⟩

theorem inv_handleKey (g : GameState) (d : Dir) (k : Nat) (four : Bool)
    (hInv : Inv g) :
    Inv (handleKey g d k four) ∧
      g.bestScore ≤ (handleKey g d k four).bestScore := by
  by_cases hm : g.msgVisible = true
  · rw [handleKey_msg g d k four hm]
    exact ⟨hInv, le_refl _⟩
  · have hm' : g.msgVisible = false := by simpa using hm
    by_cases hch : (applyMove d g.board g.score g.won).2.2.2 = true
    · -- a successful move
      have hwfb : WFBoard g.board := by
        rcases hInv.1 with hw | hw
        · exact hw
        · exfalso
          rw [hw, applyMove_empty] at hch
          simp at hch
      have hwf2 : WFBoard (spawnTile (applyMove d g.board g.score g.won).1
          k four) :=
        spawnTile_wf _ k four (applyMove_wf d g.board g.score g.won hwfb)
      obtain ⟨i1, i2, i3, i4, i5, i6, i7, i8, _⟩ := hInv
      rw [handleKey_moved g d k four hm' hch]
      have hcore := inv_save_update
        { g with
          board := spawnTile (applyMove d g.board g.score g.won).1 k four,
          score := (applyMove d g.board g.score g.won).2.1,
          won := (applyMove d g.board g.score g.won).2.2.1,
          msgVisible := (applyMove d g.board g.score g.won).2.2.1 && !g.won,
          historyStack := pushHist g.historyStack (presnap g) }
        (Or.inl hwf2) (pushHist_length _ _ i2)
        (by
          intro sn hsn
          rcases pushHist_mem _ _ sn hsn with hmem | heq
          · exact i3 sn hmem
          · rw [heq]
            exact hwfb)
        i4 i5 i7 i8
      by_cases hgo : isGameOver (spawnTile
          (applyMove d g.board g.score g.won).1 k four) = true
      · rw [if_pos hgo]
        obtain ⟨hI, hle⟩ := hcore
        obtain ⟨hI2, hle2⟩ := inv_showOver _ hI
        exact ⟨hI2, le_trans hle (le_trans hle2 (le_refl _))⟩
      · rw [if_neg hgo]
        exact hcore
    · have hch' : (applyMove d g.board g.score g.won).2.2.2 = false := by
        simpa using hch
      have hwfrows : ∀ row ∈ g.board, row.length = SIZE := by
        rcases hInv.1 with hw | hw
        · exact hw.2
        · rw [hw]
          intro row hr
          cases hr
      rw [handleKey_nochange g d k four hwfrows hch']
      exact ⟨hInv, le_refl _⟩

theorem inv_save (X : GameState)
    (h1 : WFGrid X.board) (h2 : X.historyStack.length ≤ 3)
    (h3 : ∀ sn ∈ X.historyStack, WFBoard sn.board)
    (h4 : 0 ≤ X.undosRemaining) (h5 : X.undosRemaining ≤ 3)
    (hsc : X.score ≤ X.bestScore)
    (h6 : 0 ≤ X.bestScore) (h7 : X.bestScore = X.storedBest.getD 0) :
    Inv (saveGameState X) :=
  ⟨h1, h2, h3, h4, h5, hsc, h6, h7,
    Or.inr ⟨X, rfl, rfl, hsc, h1, h2, h3, h4, h5⟩⟩

theorem inv_undo (g : GameState) (hInv : Inv g) :
    Inv (undoMove g) ∧ g.bestScore ≤ (undoMove g).bestScore := by
  unfold undoMove
  by_cases hg : (g.historyStack.isEmpty || decide (g.undosRemaining ≤ 0)) = true
  · simp only [hg, reduceIte]
    exact ⟨hInv, le_refl _⟩
  · have hg' : (g.historyStack.isEmpty || decide (g.undosRemaining ≤ 0))
        = false := by simpa using hg
    have hne : g.historyStack.isEmpty = false := by
      rcases Bool.or_eq_false_iff.1 hg' with ⟨h, _⟩
      exact h
    have hu : 0 < g.undosRemaining := by
      rcases Bool.or_eq_false_iff.1 hg' with ⟨_, h⟩
      simpa using of_decide_eq_false h
    obtain ⟨i1, i2, i3, i4, i5, i6, i7, i8, _⟩ := hInv
    cases hL : g.historyStack.getLast? with
    | none =>
      exfalso
      have hnil := List.getLast?_eq_none_iff.mp hL
      rw [hnil] at hne
      simp at hne
    | some last =>
      have hmem : last ∈ g.historyStack := List.mem_of_mem_getLast? hL
      have hdl : (g.historyStack.dropLast).length ≤ 3 := by
        rw [List.length_dropLast]
        omega
      have hdm : ∀ sn ∈ g.historyStack.dropLast, WFBoard sn.board :=
        fun sn hsn => i3 sn (List.mem_of_mem_dropLast hsn)
      have hu1 : (0 : Int) ≤ g.undosRemaining - 1 := by omega
      have hu2 : g.undosRemaining - 1 ≤ 3 := by omega
      simp only [hg', Bool.false_eq_true, reduceIte, hL]
      by_cases hlt : last.isTimedGame = true
      · simp only [hlt, reduceIte]
        exact inv_save_update _ (Or.inl (i3 last hmem)) hdl hdm hu1 hu2 i7 i8
      · have hlt' : last.isTimedGame = false := by simpa using hlt
        simp only [hlt', Bool.false_eq_true, reduceIte]
        exact inv_save_update _ (Or.inl (i3 last hmem)) hdl hdm hu1 hu2 i7 i8

theorem inv_resume (g : GameState) (hInv : Inv g) :
    Inv (resumeGame g) ∧ g.bestScore ≤ (resumeGame g).bestScore := by
  obtain ⟨i1, i2, i3, i4, i5, i6, i7, i8, iS⟩ := hInv
  rcases iS with hnone | ⟨gp, hsv, e1, e2, e3, e4, e5, e6, e7⟩
  · unfold resumeGame
    simp only [hnone]
    exact ⟨⟨i1, i2, i3, i4, i5, i6, i7, i8, Or.inl hnone⟩, le_refl _⟩
  · have hge : g = { g with savedGame := some (encodeState gp) } := by
      cases g
      simp only at hsv
      rw [← hsv]
    have hre : resumeGame g = updateScoreDisplay
        { g with
          savedGame := some (encodeState gp),
          board := gp.board, score := gp.score, bestScore := gp.bestScore,
          isTimedGame := gp.isTimedGame, timeRemaining := gp.timeRemaining,
          won := gp.won, historyStack := gp.historyStack,
          undosRemaining := gp.undosRemaining,
          msgVisible := false, timerRunning := gp.isTimedGame } := by
      conv_lhs => rw [hge]
      rw [resume_encode]
    rw [hre, updateScoreDisplay_spec]
    have hmax : max gp.bestScore gp.score = gp.bestScore := max_eq_left e2
    have hnc : ¬ gp.bestScore < gp.score := not_lt.2 e2
    constructor
    · refine ⟨e3, e4, e5, e6, e7, ?_, ?_, ?_, ?_⟩
      · exact le_max_right _ _
      · rw [hmax, e1]
        exact i7
      · rw [hmax, if_neg hnc, e1]
        exact i8
      · refine Or.inr ⟨gp, rfl, ?_, e2, e3, e4, e5, e6, e7⟩
        rw [hmax]
    · rw [hmax, e1]

theorem inv_tick (g : GameState) (hInv : Inv g) :
    Inv (tick g) ∧ g.bestScore ≤ (tick g).bestScore := by
  obtain ⟨i1, i2, i3, i4, i5, i6, i7, i8, iS⟩ := hInv
  unfold tick
  by_cases ht : g.timerRunning = true
  · simp only [ht, reduceIte, saveGameState]
    by_cases hz : g.timeRemaining - 1 ≤ 0
    · simp only [hz, reduceIte]
      refine ⟨(inv_showOver
        { saveGameState { g with timeRemaining := g.timeRemaining - 1 } with
          timerRunning := false }
        ⟨i1, i2, i3, i4, i5, i6, i7, i8, ?_⟩).1, le_refl _⟩
      exact Or.inr ⟨{ g with timeRemaining := g.timeRemaining - 1 }, rfl, rfl,
        i6, i1, i2, i3, i4, i5⟩
    · simp only [hz, reduceIte]
      exact ⟨⟨i1, i2, i3, i4, i5, i6, i7, i8,
        Or.inr ⟨{ g with timeRemaining := g.timeRemaining - 1 }, rfl, rfl,
          i6, i1, i2, i3, i4, i5⟩⟩, le_refl _⟩
  · have ht' : g.timerRunning = false := by simpa using ht
    simp only [ht', Bool.false_eq_true, reduceIte]
    exact ⟨⟨i1, i2, i3, i4, i5, i6, i7, i8, iS⟩, le_refl _⟩

theorem inv_startGame (g : GameState) (timed : Bool) (cs : Option Int)
    (k1 : Nat) (f1 : Bool) (k2 : Nat) (f2 : Bool) (hInv : Inv g) :
    Inv (startGame g timed cs k1 f1 k2 f2) ∧
      g.bestScore ≤ (startGame g timed cs k1 f1 k2 f2).bestScore := by
  obtain ⟨i1, i2, i3, i4, i5, i6, i7, i8, _⟩ := hInv
  have hwfb : WFBoard (spawnTile (spawnTile createEmptyBoard k1 f1) k2 f2) :=
    spawnTile_wf _ _ _ (spawnTile_wf _ _ _ createEmptyBoard_wf)
  have hnc : ¬ g.bestScore < (0 : Int) := not_lt.2 i7
  unfold startGame initGame
  simp only [updateScoreDisplay_spec, saveGameState, max_eq_left i7,
    if_neg hnc]
  by_cases htd : timed = true
  · simp only [htd, reduceIte]
    refine ⟨⟨Or.inl hwfb, by simp, ?_, by norm_num, by norm_num, i7, i7, i8,
      Or.inr ⟨_, rfl, rfl, i7, Or.inl hwfb, i2, i3, i4, i5⟩⟩, le_refl _⟩
    intro sn hsn
    exact absurd hsn (List.not_mem_nil sn)
  · have htd' : timed = false := by simpa using htd
    simp only [htd', Bool.false_eq_true, reduceIte]
    refine ⟨⟨Or.inl hwfb, by simp, ?_, by norm_num, by norm_num, i7, i7, i8,
      Or.inr ⟨_, rfl, rfl, i7, Or.inl hwfb, i2, i3, i4, i5⟩⟩, le_refl _⟩
    intro sn hsn
    exact absurd hsn (List.not_mem_nil sn)

theorem inv_restart (g : GameState) (hInv : Inv g) :
    Inv (restartProcess g) ∧ g.bestScore ≤ (restartProcess g).bestScore := by
  obtain ⟨i1, i2, i3, i4, i5, i6, i7, i8, iS⟩ := hInv
  have h0 : (0 : Int) ≤ g.storedBest.getD 0 := by rw [← i8]; exact i7
  have hnc : ¬ g.storedBest.getD 0 < (0 : Int) := not_lt.2 h0
  unfold restartProcess
  simp only [updateScoreDisplay_spec, max_eq_left h0, if_neg hnc]
  refine ⟨⟨Or.inr rfl, by simp, ?_, by norm_num, by norm_num, h0, h0, rfl,
    ?_⟩, ?_⟩
  · intro sn hsn
    exact absurd hsn (List.not_mem_nil sn)
  · rcases iS with hnone | ⟨gp, hsv, hb, hrest⟩
    · exact Or.inl hnone
    · refine Or.inr ⟨gp, hsv, ?_, hrest⟩
      rw [hb, i8]
  · rw [i8]

theorem inv_keepPlaying (g : GameState) (hInv : Inv g) :
    Inv (keepPlaying g) ∧ g.bestScore ≤ (keepPlaying g).bestScore := by
  obtain ⟨i1, i2, i3, i4, i5, i6, i7, i8, iS⟩ := hInv
  unfold keepPlaying
  by_cases hc : (g.isTimedGame && !g.timerRunning) = true
  · simp only [hc, reduceIte]
    exact ⟨⟨i1, i2, i3, i4, i5, i6, i7, i8, iS⟩, le_refl _⟩
  · have hc' : (g.isTimedGame && !g.timerRunning) = false := by simpa using hc
    simp only [hc', Bool.false_eq_true, reduceIte]
    exact ⟨⟨i1, i2, i3, i4, i5, i6, i7, i8, iS⟩, le_refl _⟩

theorem inv_goHome (g : GameState) (hInv : Inv g) :
    Inv (goHome g) ∧ g.bestScore ≤ (goHome g).bestScore := by
  obtain ⟨i1, i2, i3, i4, i5, i6, i7, i8, _⟩ := hInv
  unfold goHome
  simp only [saveGameState]
  by_cases hc : g.isTimedGame = true
  · simp only [hc, reduceIte]
    exact ⟨⟨i1, i2, i3, i4, i5, i6, i7, i8,
      Or.inr ⟨g, rfl, rfl, i6, i1, i2, i3, i4, i5⟩⟩, le_refl _⟩
  · have hc' : g.isTimedGame = false := by simpa using hc
    simp only [hc', Bool.false_eq_true, reduceIte]
    exact ⟨⟨i1, i2, i3, i4, i5, i6, i7, i8,
      Or.inr ⟨g, rfl, rfl, i6, i1, i2, i3, i4, i5⟩⟩, le_refl _⟩

/-- Every operation of the script preserves the reachability invariant and
never lowers `bestScore`. -/
theorem inv_step (g : GameState) (op : Op) (hInv : Inv g) :
    Inv (step g op) ∧ g.bestScore ≤ (step g op).bestScore := by
  cases op with
  | move d k four => exact inv_handleKey g d k four hInv
  | undo => exact inv_undo g hInv
  | resume => exact inv_resume g hInv
  | tick => exact inv_tick g hInv
  | newGame t cs k1 f1 k2 f2 => exact inv_startGame g t cs k1 f1 k2 f2 hInv
  | restart => exact inv_restart g hInv
  | keepGoing => exact inv_keepPlaying g hInv
  | home => exact inv_goHome g hInv

/-! ### Further characterizations used by the claims -/

theorem usd_board (g : GameState) :
    (updateScoreDisplay g).board = g.board := by rw [updateScoreDisplay_spec]

theorem usd_score (g : GameState) :
    (updateScoreDisplay g).score = g.score := by rw [updateScoreDisplay_spec]

theorem usd_hist (g : GameState) :
    (updateScoreDisplay g).historyStack = g.historyStack := by
  rw [updateScoreDisplay_spec]

theorem usd_undos (g : GameState) :
    (updateScoreDisplay g).undosRemaining = g.undosRemaining := by
  rw [updateScoreDisplay_spec]

theorem usd_won (g : GameState) :
    (updateScoreDisplay g).won = g.won := by rw [updateScoreDisplay_spec]

theorem usd_best (g : GameState) :
    (updateScoreDisplay g).bestScore = max g.bestScore g.score := by
  rw [updateScoreDisplay_spec]

/-- When three snapshots are already held, a push evicts the oldest. -/
theorem pushHist_full (h : List Snapshot) (s : Snapshot)
    (hlen : h.length = 3) : pushHist h s = h.tail ++ [s] := by
  match h, hlen with
  | [a, b, c], _ => simp [pushHist]

/-- Four consecutive pushes onto a bounded history leave exactly the last
three snapshots, oldest first. -/
theorem pushHist4 (h : List Snapshot) (t1 t2 t3 t4 : Snapshot)
    (hlen : h.length ≤ 3) :
    pushHist (pushHist (pushHist (pushHist h t1) t2) t3) t4
      = [t2, t3, t4] := by
  match h, hlen with
  | [], _ => simp [pushHist]
  | [a], _ => simp [pushHist]
  | [a, b], _ => simp [pushHist]
  | [a, b, c], _ => simp [pushHist]

theorem handleKey_hist (g : GameState) (d : Dir) (k : Nat) (four : Bool)
    (hm : g.msgVisible = false)
    (hch : (applyMove d g.board g.score g.won).2.2.2 = true) :
    (handleKey g d k four).historyStack
      = pushHist g.historyStack (presnap g) := by
  rw [handleKey_moved g d k four hm hch]
  by_cases hgo : isGameOver (spawnTile (applyMove d g.board g.score g.won).1
      k four) = true
  · simp [hgo, showMessageOver, saveGameState, usd_hist]
  · simp [hgo, saveGameState, usd_hist]

theorem handleKey_undos (g : GameState) (d : Dir) (k : Nat) (four : Bool) :
    (handleKey g d k four).undosRemaining = g.undosRemaining := by
  by_cases hm : g.msgVisible = true
  · rw [handleKey_msg g d k four hm]
  · have hm' : g.msgVisible = false := by simpa using hm
    by_cases hch : (applyMove d g.board g.score g.won).2.2.2 = true
    · rw [handleKey_moved g d k four hm' hch]
      by_cases hgo : isGameOver (spawnTile
          (applyMove d g.board g.score g.won).1 k four) = true
      · simp [hgo, showMessageOver, saveGameState, usd_undos]
      · simp [hgo, saveGameState, usd_undos]
    · have hch' : (applyMove d g.board g.score g.won).2.2.2 = false := by
        simpa using hch
      unfold handleKey
      rw [hm']
      simp only [Bool.false_eq_true, reduceIte, hch']

theorem handleKey_board_score (g : GameState) (d : Dir) (k : Nat) (four : Bool)
    (hm : g.msgVisible = false)
    (hch : (applyMove d g.board g.score g.won).2.2.2 = true) :
    (handleKey g d k four).board
        = spawnTile (applyMove d g.board g.score g.won).1 k four ∧
      (handleKey g d k four).score = (applyMove d g.board g.score g.won).2.1 := by
  rw [handleKey_moved g d k four hm hch]
  by_cases hgo : isGameOver (spawnTile (applyMove d g.board g.score g.won).1
      k four) = true
  · constructor
    · simp [hgo, showMessageOver, saveGameState, usd_board]
    · simp [hgo, showMessageOver, saveGameState, usd_score]
  · constructor
    · simp [hgo, saveGameState, usd_board]
    · simp [hgo, saveGameState, usd_score]

/-- `handleKey` sets `won` exactly when the move merged a `2048` tile (the
hit flag of the move with the win flag cleared), and is blocked by a visible
overlay. -/
theorem handleKey_won (g : GameState) (d : Dir) (k : Nat) (four : Bool) :
    (handleKey g d k four).won
      = (g.won || (!g.msgVisible
          && (applyMove d g.board g.score false).2.2.1)) := by
  obtain ⟨B, dd, hh, cc, hA⟩ := applyMove_decomp d g.board
  by_cases hm : g.msgVisible = true
  · rw [handleKey_msg g d k four hm, hm]
    simp
  · have hm' : g.msgVisible = false := by simpa using hm
    rw [hm', hA g.score false]
    by_cases hch : (applyMove d g.board g.score g.won).2.2.2 = true
    · rw [handleKey_moved g d k four hm' hch, hA g.score g.won]
      by_cases hgo : isGameOver (spawnTile B k four) = true
      · simp [hgo, showMessageOver, saveGameState, usd_won]
      · simp [hgo, saveGameState, usd_won]
    · have hcc : cc = false := by
        rw [hA g.score g.won] at hch
        simpa using hch
      unfold handleKey
      rw [hm']
      simp only [Bool.false_eq_true, reduceIte, hA g.score g.won, hcc]
      simp

/-- A successful undo pops the most recent snapshot and restores its board
and score, decrementing the budget by one. -/
theorem undoMove_spec (g : GameState) (pre : List Snapshot) (last : Snapshot)
    (hh : g.historyStack = pre ++ [last]) (hu : 0 < g.undosRemaining) :
    (undoMove g).board = last.board ∧ (undoMove g).score = last.score ∧
      (undoMove g).historyStack = pre ∧
      (undoMove g).undosRemaining = g.undosRemaining - 1 := by
  have hguard : (g.historyStack.isEmpty || decide (g.undosRemaining ≤ 0))
      = false := by
    rw [hh]
    simp
    omega
  have hlast : g.historyStack.getLast? = some last := by
    rw [hh]
    simp
  have hdrop : g.historyStack.dropLast = pre := by
    rw [hh]
    simp
  unfold undoMove
  simp only [hguard, Bool.false_eq_true, reduceIte, hlast]
  by_cases hlt : last.isTimedGame = true
  · simp only [hlt, reduceIte, saveGameState, updateScoreDisplay_spec]
    simp [hdrop]
  · have hlt' : last.isTimedGame = false := by simpa using hlt
    simp only [hlt', Bool.false_eq_true, reduceIte, saveGameState,
      updateScoreDisplay_spec]
    simp [hdrop]

/-- The guard of `undoMove`: empty history or exhausted budget makes it a
complete no-op. -/
theorem undoMove_noop (g : GameState)
    (h : g.historyStack = [] ∨ g.undosRemaining ≤ 0) : undoMove g = g := by
  unfold undoMove
  rcases h with h | h
  · simp [h]
  · simp [h]

/-- `resumeGame` on any state whose slot holds a serialized session. -/
theorem resumeGame_saved (g gp : GameState)
    (hsv : g.savedGame = some (encodeState gp)) :
    resumeGame g = updateScoreDisplay
      { g with
        board := gp.board, score := gp.score, bestScore := gp.bestScore,
        isTimedGame := gp.isTimedGame, timeRemaining := gp.timeRemaining,
        won := gp.won, historyStack := gp.historyStack,
        undosRemaining := gp.undosRemaining,
        msgVisible := false, timerRunning := gp.isTimedGame } := by
  have hge : g = { g with savedGame := some (encodeState gp) } := by
    cases g
    simp only at hsv
    rw [← hsv]
  conv_lhs => rw [hge]
  rw [resume_encode]
  cases g
  simp only at hsv ⊢
  rw [hsv]

/-! # Claim theorems -/

/-- Claim C1: a single application of `slideAndCombine` never merges a tile
produced by a merge in the same sweep again: every resolution decomposes the
dense input line into kept singletons and merged adjacent pairs
(`MergeBlocks`), so no cell value is doubled twice in one application; in
particular `[2,2,2,2]` resolves leftward to `[4,4,_,_]` with a score delta of
exactly `8`, not `[8,_,_,_]`. -/
theorem C1_no_double_merge :
    (∀ (line : List Cell) (s : Int) (w : Bool),
      ∃ out d h, slideAndCombine line s w =
          (out.map some ++ List.replicate (SIZE - out.length) none,
            s + d, w || h) ∧
        MergeBlocks (line.filterMap id) out d) ∧
    slideAndCombine [some 2, some 2, some 2, some 2] 0 false
      = ([some 4, some 4, none, none], 8, false) := by
  constructor
  · intro line s w
    exact ⟨_, _, _, slide_spec line s w, combinePairs_blocks _⟩
  · decide

/-- Claim C2 counterexample: `slideAndCombine` is **not** idempotent on its
own output: `[2,2,2,2]` resolves to `[4,4,_,_]`, and a second application of
the same resolution merges again, producing `[8,_,_,_]` and another score
delta — the resolved line is not a fixed point. -/
theorem C2_cex_not_idempotent :
    (slideAndCombine [some 2, some 2, some 2, some 2] 0 false).1
        = [some 4, some 4, none, none] ∧
      ¬ (slideAndCombine
            (slideAndCombine [some 2, some 2, some 2, some 2] 0 false).1
            0 false).1
          = (slideAndCombine [some 2, some 2, some 2, some 2] 0 false).1 := by
  constructor
  · decide
  · decide

/-- Claim C2 (amended): `slideAndCombine` is idempotent on its own output
only when that output contains no two adjacent equal tiles; in that case a
second application (same direction, no new tile in between) returns the line
unchanged and adds no score and no win flag. -/
theorem C2_idempotent_when_no_adjacent_pair (line : List Cell) (s : Int)
    (w : Bool) (s2 : Int) (w2 : Bool)
    (h : List.Chain' (fun a b => a ≠ b)
      ((slideAndCombine line s w).1.filterMap id)) :
    slideAndCombine (slideAndCombine line s w).1 s2 w2
      = ((slideAndCombine line s w).1, s2, w2) := by
  have hfm := slide_filterMap line s w
  have hcp := combinePairs_chain _ h
  have hO : (slideAndCombine line s w).1
      = (combinePairs (line.filterMap id)).1.map some ++
        List.replicate (SIZE - (combinePairs (line.filterMap id)).1.length)
          none := by rw [slide_spec]
  rw [slide_spec ((slideAndCombine line s w).1) s2 w2, hcp]
  simp only [add_zero, Bool.or_false]
  rw [hfm, hO]

/-- Witness for the amended claim C2 at a concrete line. -/
theorem C2_idempotent_witness :
    List.Chain' (fun a b => a ≠ b)
      ((slideAndCombine [some 2, some 4, none, none] 0 false).1.filterMap id) ∧
    slideAndCombine (slideAndCombine [some 2, some 4, none, none] 0 false).1
        5 true
      = ((slideAndCombine [some 2, some 4, none, none] 0 false).1, 5, true) := by
  have hch : List.Chain' (fun a b => a ≠ b)
      ((slideAndCombine [some 2, some 4, none, none] 0 false).1.filterMap id) := by
    rw [show ((slideAndCombine [some 2, some 4, none, none] 0
        false).1.filterMap id) = [2, 4] from by decide]
    norm_num [List.chain'_cons, List.chain'_singleton]
  exact ⟨hch,
    C2_idempotent_when_no_adjacent_pair [some 2, some 4, none, none] 0 false
      5 true hch⟩

/-- Claim C3: a key press whose direction produces no board change
(`changed = false`) leaves the whole session state exactly as it was: score,
board and history untouched, no snapshot pushed, no tile spawned, no
persistence write. -/
theorem C3_illegal_move_is_noop (g : GameState) (d : Dir) (k : Nat)
    (four : Bool) (hwf : ∀ row ∈ g.board, row.length = SIZE)
    (hch : (applyMove d g.board g.score g.won).2.2.2 = false) :
    handleKey g d k four = g :=
  handleKey_nochange g d k four hwf hch

/-- Witness for claim C3 at a concrete state and direction. -/
theorem C3_illegal_move_witness :
    (∀ row ∈ stillState.board, row.length = SIZE) ∧
    (applyMove Dir.left stillState.board stillState.score
      stillState.won).2.2.2 = false ∧
    handleKey stillState Dir.left 0 false = stillState :=
  ⟨by decide, by decide,
    C3_illegal_move_is_noop stillState Dir.left 0 false (by decide)
      (by decide)⟩

/-- Claim C4: across every operation of the script (moves, undos, resumes,
timer ticks, new games, page reloads, and the rest), the reachability
invariant is preserved and `bestScore` never decreases; whenever the score
display is refreshed, `bestScore` becomes `max bestScore score`. -/
theorem C4_bestScore_monotone :
    (∀ (g : GameState) (op : Op), Inv g →
      Inv (step g op) ∧ g.bestScore ≤ (step g op).bestScore) ∧
    (∀ g : GameState,
      (updateScoreDisplay g).bestScore = max g.bestScore g.score) := by
  constructor
  · exact inv_step
  · intro g
    exact usd_best g

/-- Witness for claim C4 at a concrete state and operation. -/
theorem C4_bestScore_witness :
    Inv stillState ∧ Inv (step stillState Op.undo) ∧
      stillState.bestScore ≤ (step stillState Op.undo).bestScore := by
  have hInv : Inv stillState :=
    ⟨Or.inl ⟨by decide, by decide⟩,
      by decide, fun sn hsn => absurd hsn (List.not_mem_nil sn), by decide,
      by decide, by decide, by decide, by decide, Or.inl rfl⟩
  obtain ⟨h1, h2⟩ := C4_bestScore_monotone.1 stillState Op.undo hInv
  exact ⟨hInv, h1, h2⟩

/-- Claim C5: the `won` flag is set exactly when a merge produces a `2048`
tile and is sticky for the session: a key press yields
`won || (overlay hidden && the move merged to 2048)`, and undo, timer ticks
and the keep-playing button never change it — in particular an undo that
restores a pre-win board leaves `won = true`. -/
theorem C5_won_sticky :
    (∀ (g : GameState) (d : Dir) (k : Nat) (four : Bool),
      (handleKey g d k four).won
        = (g.won || (!g.msgVisible
            && (applyMove d g.board g.score false).2.2.1))) ∧
    (∀ g : GameState, (undoMove g).won = g.won) ∧
    (∀ g : GameState, (tick g).won = g.won) ∧
    (∀ g : GameState, (keepPlaying g).won = g.won) := by
  refine ⟨handleKey_won, ?_, ?_, ?_⟩
  · intro g
    unfold undoMove
    by_cases hg : (g.historyStack.isEmpty || decide (g.undosRemaining ≤ 0))
        = true
    · simp [hg]
    · have hg' : (g.historyStack.isEmpty || decide (g.undosRemaining ≤ 0))
          = false := by simpa using hg
      simp only [hg', Bool.false_eq_true, reduceIte]
      cases hL : g.historyStack.getLast? with
      | none => rfl
      | some last =>
        by_cases hlt : last.isTimedGame = true
        · simp [hlt, saveGameState, usd_won]
        · simp [hlt, saveGameState, usd_won]
  · intro g
    unfold tick
    by_cases ht : g.timerRunning = true
    · simp only [ht, reduceIte, saveGameState]
      by_cases hz : g.timeRemaining - 1 ≤ 0
      · simp [hz, showMessageOver]
      · simp [hz]
    · simp [ht]
  · intro g
    unfold keepPlaying
    by_cases hc : (g.isTimedGame && !g.timerRunning) = true
    · simp [hc]
    · simp [hc]

/-- Claim C6: the history stack of every reachable state holds at most three
snapshots; a push onto a full stack evicts the oldest snapshot (FIFO); and
after four consecutive successful moves, three successive undos restore
exactly the three most recent pre-move states in reverse chronological
order, leaving the stack empty. -/
theorem C6_history_bounded_fifo :
    (∀ (g : GameState) (op : Op), Inv g →
      (step g op).historyStack.length ≤ 3) ∧
    (∀ (g : GameState) (d : Dir) (k : Nat) (four : Bool),
      g.msgVisible = false →
      (applyMove d g.board g.score g.won).2.2.2 = true →
      g.historyStack.length = 3 →
      (handleKey g d k four).historyStack
        = g.historyStack.tail ++ [presnap g]) ∧
    (∀ (g g1 g2 g3 g4 u1 u2 u3 : GameState) (d1 d2 d3 d4 : Dir)
      (k1 k2 k3 k4 : Nat) (f1 f2 f3 f4 : Bool),
      g.historyStack.length ≤ 3 → g.undosRemaining = 3 →
      g.msgVisible = false → g1.msgVisible = false →
      g2.msgVisible = false → g3.msgVisible = false →
      (applyMove d1 g.board g.score g.won).2.2.2 = true →
      (applyMove d2 g1.board g1.score g1.won).2.2.2 = true →
      (applyMove d3 g2.board g2.score g2.won).2.2.2 = true →
      (applyMove d4 g3.board g3.score g3.won).2.2.2 = true →
      g1 = handleKey g d1 k1 f1 → g2 = handleKey g1 d2 k2 f2 →
      g3 = handleKey g2 d3 k3 f3 → g4 = handleKey g3 d4 k4 f4 →
      u1 = undoMove g4 → u2 = undoMove u1 → u3 = undoMove u2 →
      (g4.historyStack = [presnap g1, presnap g2, presnap g3] ∧
        u1.board = g3.board ∧ u1.score = g3.score ∧
        u2.board = g2.board ∧ u2.score = g2.score ∧
        u3.board = g1.board ∧ u3.score = g1.score ∧
        u3.historyStack = [] ∧ u3.undosRemaining = 0)) := by
  refine ⟨?_, ?_, ?_⟩
  · intro g op hInv
    exact ((inv_step g op hInv).1).2.1
  · intro g d k four hm hch hlen
    rw [handleKey_hist g d k four hm hch]
    exact pushHist_full _ _ hlen
  · intro g g1 g2 g3 g4 u1 u2 u3 d1 d2 d3 d4 k1 k2 k3 k4 f1 f2 f3 f4
      hlen hund hm0 hm1 hm2 hm3 hc1 hc2 hc3 hc4 e1 e2 e3 e4 e5 e6 e7
    have hh1 := handleKey_hist g d1 k1 f1 hm0 hc1
    rw [← e1] at hh1
    have hh2 := handleKey_hist g1 d2 k2 f2 hm1 hc2
    rw [← e2] at hh2
    have hh3 := handleKey_hist g2 d3 k3 f3 hm2 hc3
    rw [← e3] at hh3
    have hh4 := handleKey_hist g3 d4 k4 f4 hm3 hc4
    rw [← e4] at hh4
    have hist4 : g4.historyStack
        = [presnap g1, presnap g2, presnap g3] := by
      rw [hh4, hh3, hh2, hh1]
      exact pushHist4 g.historyStack _ _ _ _ hlen
    have hu4 : g4.undosRemaining = 3 := by
      rw [e4, handleKey_undos, e3, handleKey_undos, e2, handleKey_undos, e1,
        handleKey_undos]
      exact hund
    obtain ⟨ub1, us1, uh1, uu1⟩ := undoMove_spec g4 [presnap g1, presnap g2]
      (presnap g3) (by rw [hist4]; rfl) (by rw [hu4]; norm_num)
    rw [← e5] at ub1 us1 uh1 uu1
    have hu1 : u1.undosRemaining = 2 := by rw [uu1, hu4]; norm_num
    obtain ⟨ub2, us2, uh2, uu2⟩ := undoMove_spec u1 [presnap g1]
      (presnap g2) (by rw [uh1]; rfl) (by rw [hu1]; norm_num)
    rw [← e6] at ub2 us2 uh2 uu2
    have hu2 : u2.undosRemaining = 1 := by rw [uu2, hu1]; norm_num
    obtain ⟨ub3, us3, uh3, uu3⟩ := undoMove_spec u2 [] (presnap g1)
      (by rw [uh2]; rfl) (by rw [hu2]; norm_num)
    rw [← e7] at ub3 us3 uh3 uu3
    have hu3 : u3.undosRemaining = 0 := by rw [uu3, hu2]; norm_num
    exact ⟨hist4, ub1, us1, ub2, us2, ub3, us3, uh3, hu3⟩

/-- Witness for claim C6: four successful moves followed by three undos on a
concrete session. -/
theorem C6_history_witness :
    fm4.historyStack = [presnap fm1, presnap fm2, presnap fm3] ∧
    fmU1.board = fm3.board ∧ fmU1.score = fm3.score ∧
    fmU2.board = fm2.board ∧ fmU2.score = fm2.score ∧
    fmU3.board = fm1.board ∧ fmU3.score = fm1.score ∧
    fmU3.historyStack = [] ∧ fmU3.undosRemaining = 0 := by
  exact C6_history_bounded_fifo.2.2 fourMoveState fm1 fm2 fm3 fm4 fmU1 fmU2
    fmU3 Dir.right Dir.left Dir.right Dir.left 0 0 0 0 false false false false
    (by decide) (by decide) (by decide) (by decide) (by decide) (by decide)
    (by decide) (by decide) (by decide) (by decide)
    rfl rfl rfl rfl rfl rfl rfl

/-- Claim C7: `undosRemaining` is 3 at session start (`initGame`), drops by
exactly one on each successful undo, is never negative, and is never
increased by a move, an undo or a timer tick; `undoMove` with an empty
history or an exhausted budget returns without mutating any state. -/
theorem C7_undo_budget :
    (∀ (g : GameState) (k1 : Nat) (f1 : Bool) (k2 : Nat) (f2 : Bool),
      (initGame g k1 f1 k2 f2).undosRemaining = 3) ∧
    (∀ g : GameState, g.historyStack = [] ∨ g.undosRemaining ≤ 0 →
      undoMove g = g) ∧
    (∀ (g : GameState) (pre : List Snapshot) (last : Snapshot),
      g.historyStack = pre ++ [last] → 0 < g.undosRemaining →
      (undoMove g).undosRemaining = g.undosRemaining - 1) ∧
    (∀ g : GameState, 0 ≤ g.undosRemaining →
      0 ≤ (undoMove g).undosRemaining) ∧
    (∀ g : GameState, (undoMove g).undosRemaining ≤ g.undosRemaining
      ∨ g.undosRemaining ≤ 0) ∧
    (∀ (g : GameState) (d : Dir) (k : Nat) (four : Bool),
      (handleKey g d k four).undosRemaining = g.undosRemaining) ∧
    (∀ g : GameState, (tick g).undosRemaining = g.undosRemaining) := by
  refine ⟨?_, ?_, ?_, ?_, ?_, handleKey_undos, ?_⟩
  · intro g k1 f1 k2 f2
    rfl
  · exact undoMove_noop
  · intro g pre last hh hu
    exact (undoMove_spec g pre last hh hu).2.2.2
  · intro g hge
    by_cases hz : 0 < g.undosRemaining
    · rcases hL : g.historyStack.getLast? with _ | last
      · rw [undoMove_noop g (Or.inl (List.getLast?_eq_none_iff.mp hL))]
        exact hge
      · have hh : g.historyStack = g.historyStack.dropLast ++ [last] :=
          (List.dropLast_append_getLast? last hL).symm
        rw [(undoMove_spec g _ last hh hz).2.2.2]
        omega
    · rw [undoMove_noop g (Or.inr (by omega))]
      exact hge
  · intro g
    by_cases hz : 0 < g.undosRemaining
    · rcases hL : g.historyStack.getLast? with _ | last
      · rw [undoMove_noop g (Or.inl (List.getLast?_eq_none_iff.mp hL))]
        exact Or.inl (le_refl _)
      · have hh : g.historyStack = g.historyStack.dropLast ++ [last] :=
          (List.dropLast_append_getLast? last hL).symm
        rw [(undoMove_spec g _ last hh hz).2.2.2]
        exact Or.inl (by omega)
    · exact Or.inr (by omega)
  · intro g
    unfold tick
    by_cases ht : g.timerRunning = true
    · simp only [ht, reduceIte, saveGameState]
      by_cases hz : g.timeRemaining - 1 ≤ 0
      · simp [hz, showMessageOver]
      · simp [hz]
    · simp [ht]

/-- Witness for claim C7 at concrete states. -/
theorem C7_undo_budget_witness :
    (initGame stillState 0 false 0 false).undosRemaining = 3 ∧
    undoMove stillState = stillState ∧
    endedState.historyStack = [] ++ [endedSnap] ∧
    (undoMove endedState).undosRemaining = endedState.undosRemaining - 1 ∧
    (0 : Int) ≤ (undoMove endedState).undosRemaining := by
  refine ⟨C7_undo_budget.1 stillState 0 false 0 false,
    C7_undo_budget.2.1 stillState (Or.inl rfl),
    rfl,
    C7_undo_budget.2.2.1 endedState [] endedSnap rfl (by decide),
    C7_undo_budget.2.2.2.1 endedState (by decide)⟩

theorem usd_timed (g : GameState) :
    (updateScoreDisplay g).isTimedGame = g.isTimedGame := by
  rw [updateScoreDisplay_spec]

theorem usd_time (g : GameState) :
    (updateScoreDisplay g).timeRemaining = g.timeRemaining := by
  rw [updateScoreDisplay_spec]

/-- Claim C8: serializing a session with `saveGameState` and loading the
resulting slot with `resumeGame` reproduces the session exactly: board,
score, history stack, undo budget, win flag, timed flag and remaining time
are all restored. -/
theorem C8_save_load_roundtrip (g h : GameState) :
    (resumeGame { h with savedGame := (saveGameState g).savedGame }).board
        = g.board ∧
    (resumeGame { h with savedGame := (saveGameState g).savedGame }).score
        = g.score ∧
    (resumeGame { h with
        savedGame := (saveGameState g).savedGame }).historyStack
      = g.historyStack ∧
    (resumeGame { h with
        savedGame := (saveGameState g).savedGame }).undosRemaining
      = g.undosRemaining ∧
    (resumeGame { h with savedGame := (saveGameState g).savedGame }).won
        = g.won ∧
    (resumeGame { h with savedGame := (saveGameState g).savedGame }).isTimedGame
        = g.isTimedGame ∧
    (resumeGame { h with
        savedGame := (saveGameState g).savedGame }).timeRemaining
      = g.timeRemaining := by
  have hsv : ({ h with savedGame := (saveGameState g).savedGame }
      : GameState).savedGame = some (encodeState g) := rfl
  rw [resumeGame_saved _ g hsv]
  exact ⟨by simp [usd_board], by simp [usd_score], by simp [usd_hist],
    by simp [usd_undos], by simp [usd_won], by simp [usd_timed],
    by simp [usd_time]⟩

/-- Claim C9 counterexample: on an `Ended` session (full board with no moves
left, game-over overlay showing), `undoMove` still mutates the state: with a
snapshot in history and budget left it changes board and score, so an undo
is *not* rejected after the session has ended. -/
theorem C9_cex_undo_mutates_ended :
    isGameOver endedState.board = true ∧ endedState.msgVisible = true ∧
    ¬ ((undoMove endedState).board = endedState.board ∧
        (undoMove endedState).score = endedState.score) := by
  refine ⟨by decide, rfl, by decide⟩

/-- Claim C9 (amended): direction moves are indeed rejected on an ended
session — a visible overlay makes `handleKey` the identity — but `undoMove`
has no such guard: whenever history is nonempty and budget remains, it
restores the latest snapshot's board and score even from an ended session. -/
theorem C9_ended_moves_blocked_undo_not :
    (∀ (g : GameState) (d : Dir) (k : Nat) (four : Bool),
      g.msgVisible = true → handleKey g d k four = g) ∧
    (∀ (g : GameState) (pre : List Snapshot) (last : Snapshot),
      g.historyStack = pre ++ [last] → 0 < g.undosRemaining →
      (undoMove g).board = last.board ∧ (undoMove g).score = last.score ∧
        (undoMove g).historyStack = pre ∧
        (undoMove g).undosRemaining = g.undosRemaining - 1) :=
  ⟨handleKey_msg, undoMove_spec⟩

/-- Witness for the amended claim C9 at the concrete ended session. -/
theorem C9_ended_witness :
    endedState.msgVisible = true ∧
    handleKey endedState Dir.left 0 false = endedState ∧
    endedState.historyStack = [] ++ [endedSnap] ∧
    (0 : Int) < endedState.undosRemaining ∧
    (undoMove endedState).board = endedSnap.board ∧
    (undoMove endedState).score = endedSnap.score := by
  obtain ⟨b1, b2, _, _⟩ := C9_ended_moves_blocked_undo_not.2 endedState []
    endedSnap rfl (by decide)
  exact ⟨rfl, C9_ended_moves_blocked_undo_not.1 endedState Dir.left 0 false
    rfl, rfl, by decide, b1, b2⟩

/-- Claim C10: `initGame` saves the freshly initialized game **before**
clearing `historyStack` and resetting `undosRemaining`, so the persisted
state pairs the fresh board and score 0 with the previous session's history
and undo budget — a resume before the first move of the new game restores
the fresh board and score 0 together with the prior session's history stack
and `undosRemaining`. -/
theorem C10_init_saves_stale_history (g : GameState) (k1 : Nat) (f1 : Bool)
    (k2 : Nat) (f2 : Bool) :
    (initGame g k1 f1 k2 f2).historyStack = [] ∧
    (initGame g k1 f1 k2 f2).undosRemaining = 3 ∧
    (initGame g k1 f1 k2 f2).score = 0 ∧
    (resumeGame (initGame g k1 f1 k2 f2)).board
        = (initGame g k1 f1 k2 f2).board ∧
    (resumeGame (initGame g k1 f1 k2 f2)).score = 0 ∧
    (resumeGame (initGame g k1 f1 k2 f2)).historyStack = g.historyStack ∧
    (resumeGame (initGame g k1 f1 k2 f2)).undosRemaining
        = g.undosRemaining := by
  have hsv : (initGame g k1 f1 k2 f2).savedGame
      = some (encodeState (updateScoreDisplay
        { g with
          board := spawnTile (spawnTile createEmptyBoard k1 f1) k2 f2,
          score := 0, won := false, msgVisible := false })) := rfl
  rw [resumeGame_saved _ _ hsv]
  refine ⟨rfl, rfl, by simp [initGame, saveGameState, usd_score],
    by simp [initGame, saveGameState, usd_board], by simp [usd_score],
    by simp [usd_hist], by simp [usd_undos]⟩

end Game2048
